import Mathlib

/-!
Verification of the neovim-ink core against its specification.

This file shallowly embeds the grid state machine (`src/screen/screen-buffer.ts`),
the highlight compiler (`src/screen/highlight.ts`), the SGR mouse decoder and the
key decoder (`src/neovim/process.ts` / `src/neovim/input.ts`) as executable Lean
definitions, and proves the specification claims about them.

Conventions of the embedding:
* JavaScript numbers holding cell coordinates, dimensions, highlight ids and
  colors are modelled as `Nat` (they are non-negative in every reachable state);
  quantities that may be negative in the source (`grid_scroll`'s `rows` delta,
  the 1-indexed-to-0-indexed mouse coordinates, the `-1` color sentinel) are
  modelled as `Int`.
* The JS `Map` for highlight attributes is modelled as a lookup function
  `Nat → Option HlAttr`; `Map.set` is point-wise update, `Map.get` is
  application.  The `Set<number>` of dirty rows is a `Finset ℕ`.
* In-place mutation of the 2-D cell array is modelled by explicit state passing
  over `List (List Cell)`; sequential loops become folds over the same index
  ranges the source iterates.
-/

namespace NeovimInk

/-- A single cell in the screen buffer (`src/screen/types.ts`): the glyph text
(empty string marks the right half of a wide character) and the highlight id. -/
structure Cell where
  text : String
  hlId : Nat
  deriving DecidableEq, Repr

/-- Highlight attributes from `hl_attr_define` (`src/screen/types.ts`).  The
interface has no `dim` field; the optional booleans are modelled as plain
`Bool` (absent = `false`), matching how the source reads them. -/
structure HlAttr where
  foreground : Option Nat := none
  background : Option Nat := none
  special : Option Nat := none
  reverse : Bool := false
  italic : Bool := false
  bold : Bool := false
  strikethrough : Bool := false
  underline : Bool := false
  undercurl : Bool := false
  underdouble : Bool := false
  underdotted : Bool := false
  underdashed : Bool := false
  blend : Option Nat := none
  deriving DecidableEq, Repr

/-- Mode descriptor from `mode_info_set` (`src/screen/types.ts`). -/
inductive CursorShape where
  | block
  | horizontal
  | vertical
  deriving DecidableEq, Repr

structure ModeInfo where
  cursor_shape : Option CursorShape := none
  cell_percentage : Option Nat := none
  attr_id : Option Nat := none
  name : Option String := none
  short_name : Option String := none
  deriving DecidableEq, Repr

/-- Cursor state (`src/screen/types.ts`). -/
structure CursorState where
  grid : Nat
  row : Nat
  col : Nat
  modeIdx : Nat
  visible : Bool
  deriving DecidableEq, Repr

/-- Default colors (`src/screen/types.ts`). -/
structure DefaultColors where
  fg : Nat
  bg : Nat
  sp : Nat
  deriving DecidableEq, Repr

/-- `makeCell()` from `src/screen/screen-buffer.ts`. -/
def makeCell : Cell := { text := " ", hlId := 0 }

/-- `makeRow(width)` from `src/screen/screen-buffer.ts`. -/
def makeRow (width : Nat) : List Cell := List.replicate width makeCell

/-- The `ScreenBuffer` state (`src/screen/screen-buffer.ts`).  The highlight
attribute `Map` is embedded as a lookup function, the dirty-row `Set` as a
`Finset`. -/
structure ScreenBuffer where
  width : Nat
  height : Nat
  cells : List (List Cell)
  hlAttrs : Nat → Option HlAttr
  defaultColors : DefaultColors
  cursor : CursorState
  modeInfoList : List ModeInfo
  dirtyRows : Finset Nat
  generation : Nat

/-- The `ScreenBuffer` constructor. -/
def mkScreenBuffer (width height : Nat) : ScreenBuffer where
  width := width
  height := height
  cells := List.replicate height (makeRow width)
  hlAttrs := fun _ => none
  defaultColors := { fg := 0xffffff, bg := 0x000000, sp := 0xff0000 }
  cursor := { grid := 1, row := 0, col := 0, modeIdx := 0, visible := true }
  modeInfoList := []
  dirtyRows := ∅
  generation := 0

/-! ### gridResize -/

/-- Column adjustment of one existing row in `gridResize`: push blank cells when
the width grows, truncate when it shrinks. -/
def adjustRow (oldW w : Nat) (row : List Cell) : List Cell :=
  if oldW < w then row ++ List.replicate (w - oldW) makeCell
  else if w < oldW then row.take w
  else row

/-- Apply `adjustRow` to the rows with index `< bound` (the source's
`for (let r = 0; r < Math.min(height, oldHeight); r++)` loop), leaving the
rows appended by the grow step untouched.  `r` is the index of the head. -/
def adjustRows (oldW w bound : Nat) : Nat → List (List Cell) → List (List Cell)
  | _, [] => []
  | r, row :: rest =>
      (if r < bound then adjustRow oldW w row else row) :: adjustRows oldW w bound (r + 1) rest

/-- `ScreenBuffer.gridResize` (`src/screen/screen-buffer.ts:32`).  Grow or
shrink the row list, adjust the widths of the retained rows, mark every row of
the new grid dirty. -/
def gridResize (g : ScreenBuffer) (width height : Nat) : ScreenBuffer :=
  let oldHeight := g.height
  let oldWidth := g.width
  let grown :=
    if oldHeight < height then g.cells ++ List.replicate (height - oldHeight) (makeRow width)
    else if height < oldHeight then g.cells.take height
    else g.cells
  { g with
    width := width
    height := height
    cells := adjustRows oldWidth width (min height oldHeight) 0 grown
    dirtyRows := g.dirtyRows ∪ Finset.range height }

/-! ### gridLine -/

/-- One run of a `grid_line` event: the protocol sends `[text]`,
`[text, hlId]` or `[text, hlId, repeat]`. -/
inductive GridRun where
  | t (text : String)
  | th (text : String) (hlId : Nat)
  | thr (text : String) (hlId : Nat) (rep : Nat)
  deriving DecidableEq, Repr

def GridRun.text : GridRun → String
  | .t s => s
  | .th s _ => s
  | .thr s _ _ => s

/-- `arr.length > 1 ? arr[1] : lastHlId` -/
def GridRun.hlOr (lastHlId : Nat) : GridRun → Nat
  | .t _ => lastHlId
  | .th _ h => h
  | .thr _ h _ => h

/-- `arr.length > 2 ? arr[2] : 1` -/
def GridRun.repOr : GridRun → Nat
  | .t _ => 1
  | .th _ _ => 1
  | .thr _ _ r => r

/-- The inner repetition loop of `gridLine`: write `⟨t, hl⟩` at columns
`col, col+1, …` (`rep` of them), dropping every write with `col ≥ width` or an
invalid row, and return the updated cells together with the next column. -/
def writeRep (w row : Nat) (t : String) (hl : Nat) :
    List (List Cell) → Nat → Nat → List (List Cell) × Nat
  | cells, col, 0 => (cells, col)
  | cells, col, rep + 1 =>
      let cells' :=
        if col < w ∧ row < cells.length then
          cells.set row ((cells.getD row []).set col { text := t, hlId := hl })
        else cells
      writeRep w row t hl cells' (col + 1) rep

/-- The run loop of `gridLine`: mutable `col` and `lastHlId` become explicit
arguments threaded through the recursion. -/
def lineLoop (w row : Nat) : List GridRun → List (List Cell) → Nat → Nat → List (List Cell)
  | [], cells, _, _ => cells
  | run :: rest, cells, col, lastHlId =>
      let hl := run.hlOr lastHlId
      let wr := writeRep w row run.text hl cells col run.repOr
      lineLoop w row rest wr.1 wr.2 hl

/-- `ScreenBuffer.gridLine` (`src/screen/screen-buffer.ts:64`). -/
def gridLine (g : ScreenBuffer) (row colStart : Nat) (runs : List GridRun) : ScreenBuffer :=
  { g with
    cells := lineLoop g.width row runs g.cells colStart 0
    dirtyRows := insert row g.dirtyRows }

/-! ### gridCursorGoto, gridScroll, gridClear -/

/-- `ScreenBuffer.gridCursorGoto` (`src/screen/screen-buffer.ts:86`). -/
def gridCursorGoto (g : ScreenBuffer) (row col : Nat) : ScreenBuffer :=
  { g with cursor := { g.cursor with row := row, col := col } }

/-- The inner column loop of `gridScroll`'s copy phase: overwrite the columns
`[left, right)` of `dst` with the same columns of `src`.  `c` is the index of
the head of `dst`. -/
def copyCols (left right : Nat) (src : List Cell) : Nat → List Cell → List Cell
  | _, [] => []
  | c, x :: xs =>
      (if left ≤ c ∧ c < right then src.getD c x else x) :: copyCols left right src (c + 1) xs

/-- The inner column loop of `gridScroll`'s clear phase: blank the columns
`[left, right)`. -/
def clearCols (left right : Nat) : Nat → List Cell → List Cell
  | _, [] => []
  | c, x :: xs =>
      (if left ≤ c ∧ c < right then makeCell else x) :: clearCols left right (c + 1) xs

/-- One iteration of a copy loop: row `r` receives columns `[left,right)` of
row `r + off` (scroll up) or `r - off` of the *current* cells, exactly as the
in-place JS loop does. -/
def scrollCopyStep (left right : Nat) (srcOf : Nat → Nat)
    (cells : List (List Cell)) (r : Nat) : List (List Cell) :=
  cells.set r (copyCols left right (cells.getD (srcOf r) []) 0 (cells.getD r []))

/-- One iteration of a clear loop: blank columns `[left,right)` of row `r`. -/
def scrollClearStep (left right : Nat) (cells : List (List Cell)) (r : Nat) :
    List (List Cell) :=
  cells.set r (clearCols left right 0 (cells.getD r []))

/-- `ScreenBuffer.gridScroll` (`src/screen/screen-buffer.ts:91`).  `rows > 0`
scrolls up: rows `[top, bot-rows)` are copied from `r + rows` in increasing
order, then rows `[bot-rows, bot)` are cleared.  `rows < 0` scrolls down: rows
`[top-rows, bot)` are copied from `r + rows` in *decreasing* order, then rows
`[top, top-rows)` are cleared.  Every touched row index is added to the dirty
set (the source adds them one per loop iteration; the union below adds the
same indices). -/
def gridScroll (g : ScreenBuffer) (top bot left right : Nat) (rows : Int) : ScreenBuffer :=
  if 0 < rows then
    let k := rows.toNat
    let copyRows := List.range' top (bot - k - top)
    let clearRows := List.range' (bot - k) (bot - (bot - k))
    let cells₁ := copyRows.foldl (scrollCopyStep left right (· + k)) g.cells
    let cells₂ := clearRows.foldl (scrollClearStep left right) cells₁
    { g with
      cells := cells₂
      dirtyRows := g.dirtyRows ∪ (copyRows ++ clearRows).toFinset }
  else if rows < 0 then
    let k := (-rows).toNat
    let copyRows := (List.range' (top + k) (bot - (top + k))).reverse
    let clearRows := List.range' top k
    let cells₁ := copyRows.foldl (scrollCopyStep left right (· - k)) g.cells
    let cells₂ := clearRows.foldl (scrollClearStep left right) cells₁
    { g with
      cells := cells₂
      dirtyRows := g.dirtyRows ∪ (copyRows ++ clearRows).toFinset }
  else g

/-- `ScreenBuffer.gridClear` (`src/screen/screen-buffer.ts:132`). -/
def gridClear (g : ScreenBuffer) : ScreenBuffer :=
  { g with
    cells := (List.range g.height).foldl (fun cs r => cs.set r (makeRow g.width)) g.cells
    dirtyRows := g.dirtyRows ∪ Finset.range g.height }

/-! ### Highlight table, colors, modes, busy, flush -/

/-- The raw attribute map delivered by `hl_attr_define`.  The protocol may send
a `dim` flag (the repository's tests do); the source never reads it, which the
definition below reproduces. -/
structure RawAttr where
  foreground : Option Nat := none
  background : Option Nat := none
  special : Option Nat := none
  reverse : Bool := false
  italic : Bool := false
  bold : Bool := false
  strikethrough : Bool := false
  underline : Bool := false
  undercurl : Bool := false
  underdouble : Bool := false
  underdotted : Bool := false
  underdashed : Bool := false
  dim : Bool := false
  blend : Option Nat := none

/-- `ScreenBuffer.hlAttrDefine` (`src/screen/screen-buffer.ts:139`): build an
`HlAttr` from the listed raw fields (`dim` is not among them) and replace the
table entry. -/
def hlAttrDefine (g : ScreenBuffer) (id : Nat) (rawAttr : RawAttr) : ScreenBuffer :=
  let attr : HlAttr :=
    { foreground := rawAttr.foreground
      background := rawAttr.background
      special := rawAttr.special
      reverse := rawAttr.reverse
      italic := rawAttr.italic
      bold := rawAttr.bold
      strikethrough := rawAttr.strikethrough
      underline := rawAttr.underline
      undercurl := rawAttr.undercurl
      underdouble := rawAttr.underdouble
      underdotted := rawAttr.underdotted
      underdashed := rawAttr.underdashed
      blend := rawAttr.blend }
  { g with hlAttrs := fun i => if i = id then some attr else g.hlAttrs i }

/-- `ScreenBuffer.defaultColorsSet` (`src/screen/screen-buffer.ts:159`): `-1`
is the protocol's "no change" sentinel; every row becomes dirty. -/
def defaultColorsSet (g : ScreenBuffer) (fg bg sp : Int) : ScreenBuffer :=
  { g with
    defaultColors :=
      { fg := if fg ≠ -1 then fg.toNat else g.defaultColors.fg
        bg := if bg ≠ -1 then bg.toNat else g.defaultColors.bg
        sp := if sp ≠ -1 then sp.toNat else g.defaultColors.sp }
    dirtyRows := g.dirtyRows ∪ Finset.range g.height }

/-- `ScreenBuffer.modeInfoSet` (`src/screen/screen-buffer.ts:170`): the source
normalises each entry (Map or object) into the five `ModeInfo` fields; the
embedding receives the entries already in that shape and stores them. -/
def modeInfoSet (g : ScreenBuffer) (_cursorStyleEnabled : Bool)
    (modeInfoList : List ModeInfo) : ScreenBuffer :=
  { g with modeInfoList := modeInfoList }

/-- `ScreenBuffer.modeChange` (`src/screen/screen-buffer.ts:189`). -/
def modeChange (g : ScreenBuffer) (_mode : String) (modeIdx : Nat) : ScreenBuffer :=
  { g with cursor := { g.cursor with modeIdx := modeIdx } }

/-- `ScreenBuffer.busyStart` (`src/screen/screen-buffer.ts:193`). -/
def busyStart (g : ScreenBuffer) : ScreenBuffer :=
  { g with cursor := { g.cursor with visible := false } }

/-- `ScreenBuffer.busyStop` (`src/screen/screen-buffer.ts:197`). -/
def busyStop (g : ScreenBuffer) : ScreenBuffer :=
  { g with cursor := { g.cursor with visible := true } }

/-- `ScreenBuffer.flush` (`src/screen/screen-buffer.ts:201`). -/
def flush (g : ScreenBuffer) : ScreenBuffer :=
  { g with generation := g.generation + 1, dirtyRows := ∅ }

/-! ### The highlight compiler (`src/screen/highlight.ts`, `src/unnamed/part_000`) -/

/-- `rgbToAnsi` (`src/screen/highlight.ts:3`): render the three 8-bit channels
of a 24-bit color as `r;g;b` decimal text (JS template-literal number
printing = decimal representation, `Nat.repr`). -/
def rgbToAnsi (rgb : Nat) : String :=
  Nat.repr ((rgb >>> 16) &&& 0xff) ++ ";" ++
  Nat.repr ((rgb >>> 8) &&& 0xff) ++ ";" ++
  Nat.repr (rgb &&& 0xff)

/-- `fgSequence` (`src/screen/highlight.ts:10`). -/
def fgSequence (rgb : Nat) : String := "\x1b[38;2;" ++ rgbToAnsi rgb ++ "m"

/-- `bgSequence` (`src/screen/highlight.ts:14`). -/
def bgSequence (rgb : Nat) : String := "\x1b[48;2;" ++ rgbToAnsi rgb ++ "m"

def RESET : String := "\x1b[0m"
def BOLD : String := "\x1b[1m"
def ITALIC : String := "\x1b[3m"
def UNDERLINE : String := "\x1b[4m"
def UNDERCURL : String := "\x1b[4:3m"
def UNDERDOUBLE : String := "\x1b[4:2m"
def UNDERDOTTED : String := "\x1b[4:4m"
def UNDERDASHED : String := "\x1b[4:5m"
def STRIKETHROUGH : String := "\x1b[9m"

/-- Models reading the boolean flag `f` off a possibly-undefined attribute
(`hlAttr?.flag` in the source; `undefined` reads as `false`). -/
def optFlag (a : Option HlAttr) (f : HlAttr → Bool) : Bool := (a.map f).getD false

/-- `buildAttrSequence` (`src/screen/highlight.ts:28`): resolve fg/bg against
the defaults, swap on `reverse`, then append the style codes in the fixed
source order (bold, italic, one underline variant by priority, strikethrough),
and the underline-color code when a special color is defined and an underline
variant is active.  There is no `dim` handling in the source. -/
def buildAttrSequence (hlAttr : Option HlAttr) (defaultColors : DefaultColors) : String :=
  let fg0 := (hlAttr.bind (·.foreground)).getD defaultColors.fg
  let bg0 := (hlAttr.bind (·.background)).getD defaultColors.bg
  let fg := if optFlag hlAttr (·.reverse) then bg0 else fg0
  let bg := if optFlag hlAttr (·.reverse) then fg0 else bg0
  fgSequence fg ++ bgSequence bg ++
  (if optFlag hlAttr (·.bold) then BOLD else "") ++
  (if optFlag hlAttr (·.italic) then ITALIC else "") ++
  (if optFlag hlAttr (·.undercurl) then UNDERCURL
   else if optFlag hlAttr (·.underdouble) then UNDERDOUBLE
   else if optFlag hlAttr (·.underdotted) then UNDERDOTTED
   else if optFlag hlAttr (·.underdashed) then UNDERDASHED
   else if optFlag hlAttr (·.underline) then UNDERLINE
   else "") ++
  (if optFlag hlAttr (·.strikethrough) then STRIKETHROUGH else "") ++
  (if (hlAttr.bind (·.special)).isSome ∧
      (optFlag hlAttr (·.underline) ∨ optFlag hlAttr (·.undercurl) ∨
       optFlag hlAttr (·.underdouble) ∨ optFlag hlAttr (·.underdotted) ∨
       optFlag hlAttr (·.underdashed))
   then "\x1b[58;2;" ++ rgbToAnsi ((hlAttr.bind (·.special)).getD 0) ++ "m" else "")

/-- The cell loop of `renderRow` (`src/screen/highlight.ts:69`): `prevHlId`
starts at `-1`, a reset-and-restyle pair is emitted whenever the cell's
highlight id differs from it, an empty glyph renders as one space, and the
trailing `RESET` closes the row. -/
def renderRowGo (hlAttrs : Nat → Option HlAttr) (defaultColors : DefaultColors) :
    List Cell → Int → String
  | [], _ => RESET
  | cl :: rest, prevHlId =>
      (if (cl.hlId : Int) ≠ prevHlId then
        RESET ++ buildAttrSequence (hlAttrs cl.hlId) defaultColors
      else "") ++
      (if cl.text = "" then " " else cl.text) ++
      renderRowGo hlAttrs defaultColors rest (cl.hlId : Int)

/-- `renderRow` (`src/screen/highlight.ts:69`). -/
def renderRow (cells : List Cell) (hlAttrs : Nat → Option HlAttr)
    (defaultColors : DefaultColors) : String :=
  renderRowGo hlAttrs defaultColors cells (-1)

/-- The cell loop of `renderRowWithCursor` (`src/unnamed/part_000:102`, the
variant with the optional `cursorAttr`): at the cursor column the cell's
resolved colors are computed (fg/bg swapped on `reverse`), each channel is
overridden by an explicit `cursorAttr` color when present, `block` inverts the
channels, `horizontal` and `vertical` (and an undefined shape) keep them and
add an underline, and the glyph is rendered as in `renderRow`; afterwards
`prevHlId` is forced to `-1`. -/
def rrwcGo (hlAttrs : Nat → Option HlAttr) (defaultColors : DefaultColors)
    (cursorCol : Nat) (cursorShape : Option CursorShape) (cursorAttr : Option HlAttr) :
    List Cell → Nat → Int → String
  | [], _, _ => RESET
  | cl :: rest, i, prevHlId =>
      if i = cursorCol then
        let hlAttr := hlAttrs cl.hlId
        let fg0 := (hlAttr.bind (·.foreground)).getD defaultColors.fg
        let bg0 := (hlAttr.bind (·.background)).getD defaultColors.bg
        let cellFg := if optFlag hlAttr (·.reverse) then bg0 else fg0
        let cellBg := if optFlag hlAttr (·.reverse) then fg0 else bg0
        let seg :=
          match cursorShape with
          | some .block =>
              fgSequence ((cursorAttr.bind (·.foreground)).getD cellBg) ++
              bgSequence ((cursorAttr.bind (·.background)).getD cellFg)
          | some .horizontal =>
              fgSequence ((cursorAttr.bind (·.foreground)).getD cellFg) ++
              bgSequence ((cursorAttr.bind (·.background)).getD cellBg) ++ UNDERLINE
          | _ =>
              fgSequence ((cursorAttr.bind (·.foreground)).getD cellFg) ++
              bgSequence ((cursorAttr.bind (·.background)).getD cellBg) ++ UNDERLINE
        RESET ++ seg ++ (if cl.text = "" then " " else cl.text) ++
          rrwcGo hlAttrs defaultColors cursorCol cursorShape cursorAttr rest (i + 1) (-1)
      else
        (if (cl.hlId : Int) ≠ prevHlId then
          RESET ++ buildAttrSequence (hlAttrs cl.hlId) defaultColors
        else "") ++
        (if cl.text = "" then " " else cl.text) ++
        rrwcGo hlAttrs defaultColors cursorCol cursorShape cursorAttr rest (i + 1) (cl.hlId : Int)

/-- `renderRowWithCursor` (`src/unnamed/part_000:102`). -/
def renderRowWithCursor (cells : List Cell) (hlAttrs : Nat → Option HlAttr)
    (defaultColors : DefaultColors) (cursorCol : Nat)
    (cursorShape : Option CursorShape) (cursorAttr : Option HlAttr) : String :=
  rrwcGo hlAttrs defaultColors cursorCol cursorShape cursorAttr cells 0 (-1)

/-! ### Analysis functions for the rendered output -/

/-- Number of occurrences of the reset sequence `ESC [ 0 m` in a character
stream (counted by starting position; occurrences cannot overlap). -/
def countR : List Char → Nat
  | [] => 0
  | c :: rest => (if c = '\x1b' ∧ rest.take 3 = ['[', '0', 'm'] then 1 else 0) + countR rest

/-- Drop characters up to and including the next `m` (the terminator of an
SGR escape sequence). -/
def dropToM : List Char → List Char
  | [] => []
  | c :: rest => if c = 'm' then rest else dropToM rest

/-- Remove every `ESC [ … m` escape sequence, keeping the visible glyphs (the
test suite's `stripAnsi`). -/
def stripEsc : List Char → List Char
  | [] => []
  | '\x1b' :: '[' :: rest => stripEsc (dropToM rest)
  | c :: rest => c :: stripEsc rest
termination_by l => l.length
decreasing_by
  · have hle : ∀ l : List Char, (dropToM l).length ≤ l.length := by
      intro l
      induction l with
      | nil => simp [dropToM]
      | cons c r ih =>
          simp only [dropToM]
          split
          · simp
          · simp; omega
    have := hle rest
    simp
    omega
  · simp

/-- The number of reset-and-restyle emissions of `renderRow`'s loop: one per
cell whose highlight id differs from the running previous id (initially `-1`,
so the first cell always emits). -/
def emissions : List Cell → Int → Nat
  | [], _ => 0
  | cl :: rest, prevHlId =>
      (if (cl.hlId : Int) ≠ prevHlId then 1 else 0) + emissions rest cl.hlId

/-- The visible glyph stream of a row: each cell contributes its text, an
empty text contributing a single space. -/
def visibleGlyphs (cells : List Cell) : List Char :=
  cells.foldr (fun cl acc => (if cl.text = "" then " " else cl.text).data ++ acc) []

/-! ### The key decoder (`keyToNeovimInput`, `src/neovim/process.ts:32`) -/

/-- Ink's `Key` record of modifier/special-key flags, as read by
`keyToNeovimInput`.  `return` and `end` are reserved words in Lean, so those
two fields are `returnKey` and `endKey`. -/
structure Key where
  upArrow : Bool := false
  downArrow : Bool := false
  leftArrow : Bool := false
  rightArrow : Bool := false
  pageDown : Bool := false
  pageUp : Bool := false
  home : Bool := false
  endKey : Bool := false
  returnKey : Bool := false
  escape : Bool := false
  ctrl : Bool := false
  shift : Bool := false
  tab : Bool := false
  backspace : Bool := false
  delete : Bool := false
  meta : Bool := false
  deriving DecidableEq, Repr

/-- JavaScript's `String.prototype.length`: the number of UTF-16 code units
(astral-plane characters count twice). -/
def jsLength (s : String) : Nat :=
  s.data.foldl (fun n c => n + (if c.toNat < 0x10000 then 1 else 2)) 0

/-- `modWrap` (`src/neovim/process.ts:75`). -/
def modWrap (name : String) (key : Key) : String :=
  let mods := (if key.shift then "S-" else "") ++
              (if key.ctrl then "C-" else "") ++
              (if key.meta then "A-" else "")
  if mods ≠ "" then "<" ++ mods ++ name ++ ">" else "<" ++ name ++ ">"

/-- `keyToNeovimInput` (`src/neovim/process.ts:32`). -/
def keyToNeovimInput (input : String) (key : Key) : String :=
  if key.returnKey then "<CR>"
  else if key.escape then "<Esc>"
  else if key.backspace || key.delete then "<BS>"
  else if key.tab then (if key.shift then "<S-Tab>" else "<Tab>")
  else if key.upArrow then modWrap "Up" key
  else if key.downArrow then modWrap "Down" key
  else if key.leftArrow then modWrap "Left" key
  else if key.rightArrow then modWrap "Right" key
  else if key.pageUp then modWrap "PageUp" key
  else if key.pageDown then modWrap "PageDown" key
  else if key.home then modWrap "Home" key
  else if key.endKey then modWrap "End" key
  else if key.ctrl ∧ jsLength input = 1 then "<C-" ++ input ++ ">"
  else if key.meta ∧ jsLength input = 1 then "<A-" ++ input ++ ">"
  else if input = "<" then "<lt>"
  else if input = "\\" then "<Bslash>"
  else if input = "|" then "<Bar>"
  else if input = " " then "<Space>"
  else input

/-- The claim's modifier marker string: shift, then ctrl, then alt markers,
only for the modifiers actually set. -/
def modMarks (key : Key) : String :=
  (if key.shift then "S-" else "") ++
  (if key.ctrl then "C-" else "") ++
  (if key.meta then "A-" else "")

/-! ### The SGR mouse decoder (`parseMouseEvent`, `src/unnamed/part_004:52`) -/

inductive MouseButton where
  | left
  | middle
  | right
  | wheel
  deriving DecidableEq, Repr

inductive MouseAction where
  | press
  | release
  | drag
  | scroll_up
  | scroll_down
  deriving DecidableEq, Repr

/-- A decoded SGR mouse event (`src/unnamed/part_004:15`); coordinates are
0-indexed and may be `-1` when the wire carries a 0. -/
structure MouseEvent where
  button : MouseButton
  action : MouseAction
  modifier : String
  col : Int
  row : Int
  deriving DecidableEq, Repr

/-- `parseInt` on a string of decimal digits. -/
def digitsToNat (l : List Char) : Nat :=
  l.foldl (fun a c => 10 * a + (c.toNat - 48)) 0

/-- The anchored regex `\[<(\d+);(\d+);(\d+)([Mm])$` after the optional
escape byte: each `\d+` is a greedy non-empty digit group, the terminator is
`M` or `m`, and the match must consume the whole string. -/
def parseSGRBody (l : List Char) : Option (Nat × Nat × Nat × Char) :=
  match l with
  | '[' :: '<' :: rest =>
      let d1 := rest.takeWhile (·.isDigit)
      let r1 := rest.dropWhile (·.isDigit)
      if d1 = [] then none else
      match r1 with
      | ';' :: r2 =>
          let d2 := r2.takeWhile (·.isDigit)
          let r3 := r2.dropWhile (·.isDigit)
          if d2 = [] then none else
          match r3 with
          | ';' :: r4 =>
              let d3 := r4.takeWhile (·.isDigit)
              let r5 := r4.dropWhile (·.isDigit)
              if d3 = [] then none else
              match r5 with
              | [t] => if t = 'M' ∨ t = 'm' then
                  some (digitsToNat d1, digitsToNat d2, digitsToNat d3, t) else none
              | _ => none
          | _ => none
      | _ => none
  | _ => none

/-- The optional leading escape byte of the regex (`(?:\x1b)?`): consumed
when present (the following `[` can never be the escape byte itself, so the
greedy optional never backtracks). -/
def stripLeadEsc (l : List Char) : List Char :=
  match l with
  | '\x1b' :: rest => rest
  | l => l

/-- `parseMouseEvent` (`src/unnamed/part_004:52`): match the SGR pattern with
or without the leading escape byte, convert the 1-indexed coordinates to
0-indexed, read the modifiers from bits 2–4, and classify wheel (bit 6),
release (`m`), drag (bit 5) or press with the button from bits 0–1. -/
def parseMouseEvent (s : String) : Option MouseEvent :=
  match parseSGRBody (stripLeadEsc s.data) with
  | none => none
  | some (cb, cx, cy, t) =>
      let col : Int := (cx : Int) - 1
      let row : Int := (cy : Int) - 1
      let modifier := String.intercalate ":"
        ((if cb &&& 4 ≠ 0 then ["shift"] else []) ++
         (if cb &&& 8 ≠ 0 then ["alt"] else []) ++
         (if cb &&& 16 ≠ 0 then ["ctrl"] else []))
      if cb &&& 64 ≠ 0 then
        some { button := .wheel
               action := if cb &&& 1 = 0 then .scroll_up else .scroll_down
               modifier := modifier, col := col, row := row }
      else
        some { button :=
                if cb &&& 3 = 0 then .left else if cb &&& 3 = 1 then .middle else .right
               action := if t = 'm' then .release
                 else if cb &&& 32 ≠ 0 then .drag else .press
               modifier := modifier, col := col, row := row }

/-- Render an SGR mouse sequence from its parts (claim-side description of
the wire format: optional escape byte, `[<`, three digit groups separated by
`;`, and a final `M` or `m`). -/
def sgrRender (esc : Bool) (d1 d2 d3 : List Char) (term : Char) : String :=
  (if esc then "\x1b" else "") ++ "[<" ++ ⟨d1⟩ ++ ";" ++ ⟨d2⟩ ++ ";" ++ ⟨d3⟩ ++ ⟨[term]⟩

/-- Claim-side characterisation of the accepted strings: exactly the SGR
pattern `button-code;col;row` terminated by `M` or `m`, with or without the
leading escape byte. -/
def specSGR (s : String) : Prop :=
  ∃ (esc : Bool) (d1 d2 d3 : List Char) (term : Char),
    d1 ≠ [] ∧ (∀ c ∈ d1, c.isDigit) ∧
    d2 ≠ [] ∧ (∀ c ∈ d2, c.isDigit) ∧
    d3 ≠ [] ∧ (∀ c ∈ d3, c.isDigit) ∧
    (term = 'M' ∨ term = 'm') ∧
    s = sgrRender esc d1 d2 d3 term

/-- Modelled from the claim's words: coordinates become 0-indexed, bits 0–1
select left/middle/right, bit 5 marks drag, bit 6 marks a wheel event whose
bit 0 selects scroll_up/scroll_down, bits 2–4 independently contribute
shift/alt/ctrl, and a trailing `m` yields release (for non-wheel events). -/
def claimDecode (cb cx cy : Nat) (term : Char) : MouseEvent :=
  { button :=
      if cb &&& 64 ≠ 0 then .wheel
      else if cb &&& 3 = 0 then .left else if cb &&& 3 = 1 then .middle else .right
    action :=
      if cb &&& 64 ≠ 0 then (if cb &&& 1 = 0 then .scroll_up else .scroll_down)
      else if term = 'm' then .release
      else if cb &&& 32 ≠ 0 then .drag else .press
    modifier := String.intercalate ":"
      ((if cb &&& 4 ≠ 0 then ["shift"] else []) ++
       (if cb &&& 8 ≠ 0 then ["alt"] else []) ++
       (if cb &&& 16 ≠ 0 then ["ctrl"] else []))
    col := (cx : Int) - 1
    row := (cy : Int) - 1 }

/-! ### Derived notions used by the specification theorems -/

/-- The shape invariant on a bare cell matrix. -/
def CellsInv (W H : Nat) (cells : List (List Cell)) : Prop :=
  cells.length = H ∧ ∀ row ∈ cells, row.length = W

/-- Read the cell at (row, col), with the blank cell as default. -/
def cellAt (cells : List (List Cell)) (r c : Nat) : Cell :=
  (cells.getD r []).getD c makeCell

/-- The flat sequence of `(text, hlId)` writes a `grid_line` run list denotes:
an omitted highlight id inherits the previous run's (accumulator `last`,
starting at 0), an omitted repeat count defaults to 1. -/
def expandRuns : List GridRun → Nat → List (String × Nat)
  | [], _ => []
  | run :: rest, last =>
      let hl := run.hlOr last
      List.replicate run.repOr (run.text, hl) ++ expandRuns rest hl

/-- A sequence of `writeLine` calls, as delivered by repeated `grid_line`
events. -/
def applyLines (g : ScreenBuffer) (ops : List (Nat × Nat × List GridRun)) : ScreenBuffer :=
  ops.foldl (fun acc op => gridLine acc op.1 op.2.1 op.2.2) g

/-- Appending after a string with no reset sequence and no partial escape at
its end leaves the reset count of the remainder unchanged. -/
def NoReset (s : String) : Prop := ∀ y : List Char, countR (s.data ++ y) = countR y

/-- A string that strips to nothing: the whole of it is consumed by the
escape-stripping pass, whatever follows. -/
def Ghost (s : String) : Prop := ∀ y : List Char, stripEsc (s.data ++ y) = stripEsc y

/-! ### The shape invariant -/

/-- The grid shape invariant of the spec: `cells.length == height` and every
row has length `width`. -/
def Inv (g : ScreenBuffer) : Prop :=
  g.cells.length = g.height ∧ ∀ row ∈ g.cells, row.length = g.width

instance (g : ScreenBuffer) : Decidable (Inv g) := by
  unfold Inv; infer_instance

end NeovimInk

namespace NeovimInk

/-! ### Shape-preservation helper lemmas -/

theorem foldl_preserve {α β : Type*} (P : α → Prop) (f : α → β → α)
    (h : ∀ a b, P a → P (f a b)) :
    ∀ (l : List β) (init : α), P init → P (l.foldl f init) := by
  intro l
  induction l with
  | nil => intro init h0; exact h0
  | cons b rest ih => intro init h0; exact ih (f init b) (h init b h0)

theorem adjustRow_length (oldW w : Nat) (row : List Cell) (h : row.length = oldW) :
    (adjustRow oldW w row).length = w := by
  unfold adjustRow
  split
  · simp [h]; omega
  · split
    · simp [h]; omega
    · omega

theorem adjustRows_length (oldW w bound : Nat) :
    ∀ (r : Nat) (l : List (List Cell)), (adjustRows oldW w bound r l).length = l.length := by
  intro r l
  induction l generalizing r with
  | nil => rfl
  | cons row rest ih => simp [adjustRows, ih]

theorem adjustRows_widths (oldW w bound : Nat) :
    ∀ (r0 : Nat) (l : List (List Cell)),
      (∀ j, j < l.length → r0 + j < bound → (l.getD j []).length = oldW) →
      (∀ j, j < l.length → bound ≤ r0 + j → (l.getD j []).length = w) →
      ∀ row ∈ adjustRows oldW w bound r0 l, row.length = w := by
  intro r0 l
  induction l generalizing r0 with
  | nil => intro _ _ row hrow; simp [adjustRows] at hrow
  | cons hd rest ih =>
      intro h1 h2 row hrow
      simp only [adjustRows, List.mem_cons] at hrow
      rcases hrow with rfl | hrow
      · by_cases hr : r0 < bound
        · have hhd : hd.length = oldW := by
            have := h1 0 (by simp) (by omega)
            simpa using this
          simp [hr, adjustRow_length oldW w hd hhd]
        · have hhd : hd.length = w := by
            have := h2 0 (by simp) (by omega)
            simpa using this
          simp [hr, hhd]
      · refine ih (r0 + 1) ?_ ?_ row hrow
        · intro j hj hjb
          have := h1 (j + 1) (by simpa using Nat.succ_lt_succ hj) (by omega)
          simpa using this
        · intro j hj hjb
          have := h2 (j + 1) (by simpa using Nat.succ_lt_succ hj) (by omega)
          simpa using this

theorem copyCols_length (left right : Nat) (src : List Cell) :
    ∀ (c : Nat) (l : List Cell), (copyCols left right src c l).length = l.length := by
  intro c l
  induction l generalizing c with
  | nil => rfl
  | cons x xs ih => simp [copyCols, ih]

theorem clearCols_length (left right : Nat) :
    ∀ (c : Nat) (l : List Cell), (clearCols left right c l).length = l.length := by
  intro c l
  induction l generalizing c with
  | nil => rfl
  | cons x xs ih => simp [clearCols, ih]


theorem cellsInv_set (W H : Nat) (cells : List (List Cell)) (r : Nat) (v : List Cell)
    (h : CellsInv W H cells) (hv : v.length = W) : CellsInv W H (cells.set r v) := by
  obtain ⟨hlen, hw⟩ := h
  refine ⟨by simpa using hlen, ?_⟩
  intro row hrow
  rcases List.mem_or_eq_of_mem_set hrow with hmem | rfl
  · exact hw row hmem
  · exact hv

theorem getD_length_of_cellsInv (W H : Nat) (cells : List (List Cell)) (r : Nat)
    (h : CellsInv W H cells) (hr : r < cells.length) :
    (cells.getD r []).length = W := by
  refine h.2 _ ?_
  rw [List.getD_eq_getElem _ _ hr]
  exact List.getElem_mem hr

theorem scrollCopyStep_inv (W H left right : Nat) (srcOf : Nat → Nat)
    (cells : List (List Cell)) (r : Nat) (h : CellsInv W H cells) :
    CellsInv W H (scrollCopyStep left right srcOf cells r) := by
  unfold scrollCopyStep
  by_cases hr : r < cells.length
  · exact cellsInv_set W H cells r _ h
      (by rw [copyCols_length]; exact getD_length_of_cellsInv W H cells r h hr)
  · rwa [List.set_eq_of_length_le (by omega)]

theorem scrollClearStep_inv (W H left right : Nat)
    (cells : List (List Cell)) (r : Nat) (h : CellsInv W H cells) :
    CellsInv W H (scrollClearStep left right cells r) := by
  unfold scrollClearStep
  by_cases hr : r < cells.length
  · exact cellsInv_set W H cells r _ h
      (by rw [clearCols_length]; exact getD_length_of_cellsInv W H cells r h hr)
  · rwa [List.set_eq_of_length_le (by omega)]

theorem writeRep_cells_inv (W H row : Nat) (t : String) (hl : Nat) :
    ∀ (rep : Nat) (cells : List (List Cell)) (col : Nat), CellsInv W H cells →
      CellsInv W H (writeRep W row t hl cells col rep).1 := by
  intro rep
  induction rep with
  | zero => intro cells col h; exact h
  | succ n ih =>
      intro cells col h
      simp only [writeRep]
      split
      · rename_i hcond
        refine ih _ (col + 1) ?_
        refine cellsInv_set W H cells row _ h ?_
        rw [List.length_set]
        exact getD_length_of_cellsInv W H cells row h hcond.2
      · exact ih _ (col + 1) h

theorem lineLoop_cells_inv (W H row : Nat) :
    ∀ (runs : List GridRun) (cells : List (List Cell)) (col last : Nat),
      CellsInv W H cells → CellsInv W H (lineLoop W row runs cells col last) := by
  intro runs
  induction runs with
  | nil => intro cells col last h; exact h
  | cons run rest ih =>
      intro cells col last h
      exact ih _ _ _ (writeRep_cells_inv W H row run.text (run.hlOr last) run.repOr cells col h)

theorem gridLine_width (g : ScreenBuffer) (row colStart : Nat) (runs : List GridRun) :
    (gridLine g row colStart runs).width = g.width := rfl

theorem gridLine_height (g : ScreenBuffer) (row colStart : Nat) (runs : List GridRun) :
    (gridLine g row colStart runs).height = g.height := rfl

theorem gridLine_inv (g : ScreenBuffer) (row colStart : Nat) (runs : List GridRun)
    (h : Inv g) : Inv (gridLine g row colStart runs) :=
  lineLoop_cells_inv g.width g.height row runs g.cells colStart 0 h

theorem gridResize_inv (g : ScreenBuffer) (w h : Nat) (hg : Inv g) :
    Inv (gridResize g w h) := by
  obtain ⟨hlen, hw⟩ := hg
  unfold gridResize Inv
  constructor
  · simp only [adjustRows_length]
    split
    · simp; omega
    · split
      · simp; omega
      · omega
  · intro row hrow
    refine adjustRows_widths g.width w (min h g.height) 0 _ ?_ ?_ row hrow
    · intro j hj hjb
      simp only [Nat.zero_add] at hjb
      have hjold : j < g.cells.length := by omega
      have : (if g.height < h then
              g.cells ++ List.replicate (h - g.height) (makeRow w)
            else if h < g.height then g.cells.take h else g.cells).getD j [] =
          g.cells.getD j [] := by
        split
        · exact List.getD_append _ _ _ _ hjold
        · split
          · rw [List.getD_eq_getElem _ _ (by simp; omega),
                List.getElem_take, List.getD_eq_getElem _ _ hjold]
          · rfl
      rw [this]
      exact getD_length_of_cellsInv g.width g.height g.cells j ⟨hlen, hw⟩ hjold
    · intro j hj hjb
      simp only [Nat.zero_add] at hjb
      rcases Nat.lt_or_ge j g.cells.length with hjlt | hjge
      · -- only possible when the minimum is `h`, i.e. the grid shrank; but then
        -- every index below the new length is below the bound — contradiction.
        exfalso
        revert hj
        split
        · intro _; omega
        · split
          · intro hj; simp at hj; omega
          · intro _; omega
      · revert hj
        split
        · intro hj
          simp only [List.length_append, List.length_replicate] at hj
          rw [List.getD_append_right _ _ _ _ hjge,
              List.getD_eq_getElem _ _ (by simp; omega)]
          simp [makeRow]
        · split
          · intro hj; simp at hj; omega
          · intro hj; omega

theorem gridScroll_inv (g : ScreenBuffer) (top bot left right : Nat) (rows : Int)
    (h : Inv g) : Inv (gridScroll g top bot left right rows) := by
  unfold gridScroll
  split
  · refine foldl_preserve (CellsInv g.width g.height) _
      (fun a b ha => scrollClearStep_inv _ _ _ _ a b ha) _ _ ?_
    refine foldl_preserve (CellsInv g.width g.height) _
      (fun a b ha => scrollCopyStep_inv _ _ _ _ _ a b ha) _ _ h
  · split
    · refine foldl_preserve (CellsInv g.width g.height) _
        (fun a b ha => scrollClearStep_inv _ _ _ _ a b ha) _ _ ?_
      refine foldl_preserve (CellsInv g.width g.height) _
        (fun a b ha => scrollCopyStep_inv _ _ _ _ _ a b ha) _ _ h
    · exact h

theorem gridClear_inv (g : ScreenBuffer) (h : Inv g) : Inv (gridClear g) := by
  unfold gridClear
  refine foldl_preserve (CellsInv g.width g.height) _ ?_ _ _ h
  intro cells r hc
  by_cases hr : r < cells.length
  · exact cellsInv_set _ _ cells r _ hc (by simp [makeRow])
  · rwa [List.set_eq_of_length_le (by omega)]

/-! ### Cell access helpers -/


theorem getD_set_self {α : Type*} (l : List α) (i : Nat) (v d : α) (h : i < l.length) :
    (l.set i v).getD i d = v := by
  rw [List.getD_eq_getElem _ _ (by simpa using h)]
  simp [List.getElem_set_self]

theorem getD_set_ne {α : Type*} (l : List α) (i j : Nat) (v d : α) (h : i ≠ j) :
    (l.set i v).getD j d = l.getD j d := by
  simp [List.getD_eq_getElem?_getD, List.getElem?_set_ne h]

/-! ### C2: gridLine -/


/-- Full characterisation of the inner repetition loop of `gridLine`:
columns `[col, col+rep) ∩ [0, w)` of `row` receive `⟨t, hl⟩`, everything else
is unchanged, lengths are preserved and the cursor advances by `rep`. -/
theorem writeRep_spec (w row : Nat) (t : String) (hl : Nat) :
    ∀ (rep : Nat) (cells : List (List Cell)) (col : Nat),
      row < cells.length → (cells.getD row []).length = w →
      (∀ c', c' < col ∨ col + rep ≤ c' ∨ w ≤ c' →
        cellAt (writeRep w row t hl cells col rep).1 row c' = cellAt cells row c') ∧
      (∀ c', col ≤ c' → c' < col + rep → c' < w →
        cellAt (writeRep w row t hl cells col rep).1 row c' = { text := t, hlId := hl }) ∧
      (∀ r', r' ≠ row →
        (writeRep w row t hl cells col rep).1.getD r' [] = cells.getD r' []) ∧
      (writeRep w row t hl cells col rep).1.length = cells.length ∧
      ((writeRep w row t hl cells col rep).1.getD row []).length = w ∧
      (writeRep w row t hl cells col rep).2 = col + rep := by
  intro rep
  induction rep with
  | zero =>
      intro cells col hrow hlen
      exact ⟨fun _ _ => rfl, fun c' h1 h2 _ => absurd h2 (by omega),
        fun _ _ => rfl, rfl, hlen, rfl⟩
  | succ n ih =>
      intro cells col hrow hlen
      simp only [writeRep]
      by_cases hc : col < w ∧ row < cells.length
      · simp only [if_pos hc]
        set rowOld := cells.getD row [] with hrowOld
        set cells' := cells.set row (rowOld.set col { text := t, hlId := hl }) with hcells'
        have hrow' : row < cells'.length := by simpa [hcells'] using hrow
        have hrowAt : cells'.getD row [] = rowOld.set col { text := t, hlId := hl } :=
          getD_set_self _ _ _ _ hrow
        have hlen' : (cells'.getD row []).length = w := by
          rw [hrowAt, List.length_set]; exact hlen
        obtain ⟨u1, u2, u3, u4, u5, u6⟩ := ih cells' (col + 1) hrow' hlen'
        have hunch : ∀ c', c' ≠ col → cellAt cells' row c' = cellAt cells row c' := by
          intro c' hne
          unfold cellAt
          rw [hrowAt, getD_set_ne _ _ _ _ _ (fun h => hne h.symm), hrowOld]
        have hwrit : cellAt cells' row col = { text := t, hlId := hl } := by
          unfold cellAt
          rw [hrowAt, getD_set_self _ _ _ _ (by rw [hlen]; exact hc.1)]
        refine ⟨?_, ?_, ?_, by rw [u4]; simp [hcells'], u5, by omega⟩
        · intro c' hd
          rw [u1 c' (by omega), hunch c' (by omega)]
        · intro c' h1 h2 h3
          rcases Nat.eq_or_lt_of_le h1 with rfl | hgt
          · rw [u1 _ (by omega), hwrit]
          · exact u2 c' (by omega) (by omega) h3
        · intro r' hne
          rw [u3 r' hne, hcells', getD_set_ne _ _ _ _ _ (fun h => hne h.symm)]
      · simp only [if_neg hc]
        have hcol : ¬ col < w := fun h => hc ⟨h, hrow⟩
        obtain ⟨u1, u2, u3, u4, u5, u6⟩ := ih cells (col + 1) hrow hlen
        refine ⟨?_, ?_, u3, u4, u5, by omega⟩
        · intro c' hd
          exact u1 c' (by omega)
        · intro c' h1 h2 h3
          rcases Nat.eq_or_lt_of_le h1 with rfl | hgt
          · omega
          · exact u2 c' (by omega) (by omega) h3

/-- Characterisation of the `gridLine` run loop, relative to `expandRuns`. -/
theorem lineLoop_spec (w row : Nat) :
    ∀ (runs : List GridRun) (cells : List (List Cell)) (col last : Nat),
      row < cells.length → (cells.getD row []).length = w →
      (∀ i, i < (expandRuns runs last).length → col + i < w →
        cellAt (lineLoop w row runs cells col last) row (col + i) =
          { text := ((expandRuns runs last).getD i default).1
            hlId := ((expandRuns runs last).getD i default).2 }) ∧
      (∀ c', c' < col ∨ col + (expandRuns runs last).length ≤ c' ∨ w ≤ c' →
        cellAt (lineLoop w row runs cells col last) row c' = cellAt cells row c') ∧
      (∀ r', r' ≠ row →
        (lineLoop w row runs cells col last).getD r' [] = cells.getD r' []) ∧
      (lineLoop w row runs cells col last).length = cells.length ∧
      ((lineLoop w row runs cells col last).getD row []).length = w := by
  intro runs
  induction runs with
  | nil =>
      intro cells col last hrow hlen
      exact ⟨fun i hi => by simp [expandRuns] at hi, fun _ _ => rfl, fun _ _ => rfl, rfl, hlen⟩
  | cons run rest ih =>
      intro cells col last hrow hlen
      obtain ⟨w1, w2, w3, w4, w5, w6⟩ :=
        writeRep_spec w row run.text (run.hlOr last) run.repOr cells col hrow hlen
      set cells' := (writeRep w row run.text (run.hlOr last) cells col run.repOr).1 with hc'
      have hrow' : row < cells'.length := by rw [w4]; exact hrow
      obtain ⟨v1, v2, v3, v4, v5⟩ := ih cells'
        (writeRep w row run.text (run.hlOr last) cells col run.repOr).2
        (run.hlOr last) hrow' w5
      rw [w6] at v1 v2 v3 v4 v5
      have hloop : lineLoop w row (run :: rest) cells col last =
          lineLoop w row rest cells'
            (writeRep w row run.text (run.hlOr last) cells col run.repOr).2
            (run.hlOr last) := rfl
      rw [w6] at hloop
      simp only [expandRuns, List.length_append, List.length_replicate, hloop]
      refine ⟨?_, ?_, ?_, ?_, ?_⟩
      · intro i hi hcw
        by_cases hrep : i < run.repOr
        · have hv : cellAt (lineLoop w row rest cells' (col + run.repOr) (run.hlOr last))
              row (col + i) = cellAt cells' row (col + i) :=
            v2 (col + i) (by omega)
          rw [hv, w2 (col + i) (by omega) (by omega) hcw,
            List.getD_append _ _ _ _ (by simpa using hrep),
            List.getD_eq_getElem _ _ (by simpa using hrep)]
          simp
        · have hi' : i - run.repOr < (expandRuns rest (run.hlOr last)).length := by omega
          have hv := v1 (i - run.repOr) hi' (by omega)
          rw [show col + run.repOr + (i - run.repOr) = col + i by omega] at hv
          rw [hv, List.getD_append_right _ _ _ _ (by simpa using hrep)]
          simp
      · intro c' hd
        rw [v2 c' (by omega), w1 c' (by omega)]
      · intro r' hne
        rw [v3 r' hne, w3 r' hne]
      · rw [v4, w4]
      · exact v5

/-- C2: `writeLine` applies the expanded run sequence left to right from
`startCol` (omitted highlight ids inherit the previous run's, starting at 0;
omitted repeat counts default to 1), silently drops every write at or past the
grid width, changes nothing else, and marks the row dirty. -/
theorem gridLine_spec (g : ScreenBuffer) (row colStart : Nat) (runs : List GridRun)
    (hg : Inv g) (hrow : row < g.height) :
    (∀ i, i < (expandRuns runs 0).length → colStart + i < g.width →
      cellAt (gridLine g row colStart runs).cells row (colStart + i) =
        { text := ((expandRuns runs 0).getD i default).1
          hlId := ((expandRuns runs 0).getD i default).2 }) ∧
    (∀ c, c < colStart ∨ colStart + (expandRuns runs 0).length ≤ c ∨ g.width ≤ c →
      cellAt (gridLine g row colStart runs).cells row c = cellAt g.cells row c) ∧
    (∀ r, r ≠ row → (gridLine g row colStart runs).cells.getD r [] = g.cells.getD r []) ∧
    row ∈ (gridLine g row colStart runs).dirtyRows := by
  have hrl : row < g.cells.length := by rw [hg.1]; exact hrow
  obtain ⟨p1, p2, p3, _, _⟩ := lineLoop_spec g.width row runs g.cells colStart 0 hrl
    (getD_length_of_cellsInv g.width g.height g.cells row hg hrl)
  exact ⟨p1, p2, p3, Finset.mem_insert_self row _⟩

/-- Witness for C2: the spec's example `writeLine(row 0, col 0, [("x", 0, 5)])`
on a fresh 10×5 grid. -/
theorem gridLine_spec_witness :
    Inv (mkScreenBuffer 10 5) ∧ 0 < (mkScreenBuffer 10 5).height ∧
    ((∀ i, i < (expandRuns [GridRun.thr "x" 0 5] 0).length →
        0 + i < (mkScreenBuffer 10 5).width →
      cellAt (gridLine (mkScreenBuffer 10 5) 0 0 [GridRun.thr "x" 0 5]).cells 0 (0 + i) =
        { text := ((expandRuns [GridRun.thr "x" 0 5] 0).getD i default).1
          hlId := ((expandRuns [GridRun.thr "x" 0 5] 0).getD i default).2 }) ∧
    (∀ c, c < 0 ∨ 0 + (expandRuns [GridRun.thr "x" 0 5] 0).length ≤ c ∨
        (mkScreenBuffer 10 5).width ≤ c →
      cellAt (gridLine (mkScreenBuffer 10 5) 0 0 [GridRun.thr "x" 0 5]).cells 0 c =
        cellAt (mkScreenBuffer 10 5).cells 0 c) ∧
    (∀ r, r ≠ 0 →
      (gridLine (mkScreenBuffer 10 5) 0 0 [GridRun.thr "x" 0 5]).cells.getD r [] =
        (mkScreenBuffer 10 5).cells.getD r []) ∧
    0 ∈ (gridLine (mkScreenBuffer 10 5) 0 0 [GridRun.thr "x" 0 5]).dirtyRows) :=
  ⟨by decide, by decide,
    gridLine_spec (mkScreenBuffer 10 5) 0 0 [GridRun.thr "x" 0 5] (by decide) (by decide)⟩

/-! ### C3: gridResize -/

theorem adjustRows_getD (oldW w bound : Nat) :
    ∀ (r0 : Nat) (l : List (List Cell)) (j : Nat), j < l.length →
      (adjustRows oldW w bound r0 l).getD j [] =
        if r0 + j < bound then adjustRow oldW w (l.getD j []) else l.getD j [] := by
  intro r0 l
  induction l generalizing r0 with
  | nil => intro j hj; simp at hj
  | cons hd rest ih =>
      intro j hj
      cases j with
      | zero => simp [adjustRows]
      | succ n =>
          have := ih (r0 + 1) n (by simpa using Nat.lt_of_succ_lt_succ hj)
          simp only [adjustRows, List.getD_cons_succ, this]
          rw [show r0 + 1 + n = r0 + (n + 1) by omega]

theorem adjustRow_getD (oldW w : Nat) (row : List Cell) (c : Nat)
    (hrow : row.length = oldW) (hc : c < min w oldW) :
    (adjustRow oldW w row).getD c makeCell = row.getD c makeCell := by
  unfold adjustRow
  split
  · exact List.getD_append _ _ _ _ (by omega)
  · split
    · rw [List.getD_eq_getElem _ _ (by simp; omega), List.getElem_take,
        List.getD_eq_getElem _ _ (by omega)]
    · rfl

/-- The row list after the grow/shrink phase of `gridResize`. -/
theorem resize_grown_length (g : ScreenBuffer) (w h : Nat) (hlen : g.cells.length = g.height) :
    (if g.height < h then g.cells ++ List.replicate (h - g.height) (makeRow w)
     else if h < g.height then g.cells.take h else g.cells).length = h := by
  split
  · simp; omega
  · split
    · simp; omega
    · omega

theorem resize_grown_getD_lt (g : ScreenBuffer) (w h : Nat) (r : Nat)
    (hlen : g.cells.length = g.height) (hr : r < g.height) :
    (if g.height < h then g.cells ++ List.replicate (h - g.height) (makeRow w)
     else if h < g.height then g.cells.take h else g.cells).getD r []
      = g.cells.getD r [] ∨
    (h ≤ g.height ∧ ¬ r < h) := by
  split
  · exact Or.inl (List.getD_append _ _ _ _ (by omega))
  · split
    · by_cases hrh : r < h
      · refine Or.inl ?_
        rw [List.getD_eq_getElem _ _ (by simp; omega), List.getElem_take,
          List.getD_eq_getElem _ _ (by omega)]
      · exact Or.inr ⟨by omega, hrh⟩
    · exact Or.inl rfl

/-- Preservation of the overlap region by `gridResize`, as a reusable lemma. -/
theorem gridResize_preserves (g : ScreenBuffer) (w h : Nat) (hg : Inv g)
    (r c : Nat) (hr : r < min h g.height) (hc : c < min w g.width) :
    cellAt (gridResize g w h).cells r c = cellAt g.cells r c := by
  obtain ⟨hlen, hw⟩ := hg
  show cellAt (adjustRows g.width w (min h g.height) 0 _) r c = _
  unfold cellAt
  rw [adjustRows_getD _ _ _ 0 _ r (by rw [resize_grown_length g w h hlen]; omega)]
  rcases resize_grown_getD_lt g w h r hlen (by omega) with hgl | ⟨_, hrh⟩
  · rw [if_pos (by omega), hgl,
      adjustRow_getD g.width w _ c
        (getD_length_of_cellsInv g.width g.height g.cells r ⟨hlen, hw⟩ (by omega))
        hc]
  · omega

theorem getD_replicate {α : Type*} (n i : Nat) (a d : α) (h : i < n) :
    (List.replicate n a).getD i d = a := by
  rw [List.getD_eq_getElem _ _ (by simpa using h)]
  exact List.getElem_replicate _ _

/-- Blank fill of the newly exposed region by `gridResize`. -/
theorem gridResize_blank (g : ScreenBuffer) (w h : Nat) (hg : Inv g)
    (r c : Nat) (hr : r < h) (hc : c < w) (hnew : g.height ≤ r ∨ g.width ≤ c) :
    cellAt (gridResize g w h).cells r c = makeCell := by
  obtain ⟨hlen, hw⟩ := hg
  show cellAt (adjustRows g.width w (min h g.height) 0 _) r c = _
  unfold cellAt
  rw [adjustRows_getD _ _ _ 0 _ r (by rw [resize_grown_length g w h hlen]; omega)]
  by_cases hrow : r < g.height
  · have hcold : g.width ≤ c := by omega
    -- an old row, but a brand-new column: the push-blank-cells branch fills it
    rw [if_pos (by omega)]
    rcases resize_grown_getD_lt g w h r hlen hrow with hgl | ⟨_, hrh⟩
    · rw [hgl]
      have hrlen : (g.cells.getD r []).length = g.width :=
        getD_length_of_cellsInv g.width g.height g.cells r ⟨hlen, hw⟩ (by omega)
      unfold adjustRow
      rw [if_pos (by omega), List.getD_append_right _ _ _ _ (by omega),
        getD_replicate _ _ _ _ (by omega)]
    · omega
  · -- a brand-new row: it comes from the appended `makeRow w` block
    rw [if_neg (by omega)]
    have hgrow : g.height < h := by omega
    rw [if_pos hgrow, List.getD_append_right _ _ _ _ (by omega),
      getD_replicate _ _ _ _ (by omega)]
    unfold makeRow
    rw [getD_replicate _ _ _ _ hc]


theorem applyLines_width (ops : List (Nat × Nat × List GridRun)) :
    ∀ g : ScreenBuffer, (applyLines g ops).width = g.width := by
  induction ops with
  | nil => intro g; rfl
  | cons op rest ih => intro g; exact ih (gridLine g op.1 op.2.1 op.2.2)

theorem applyLines_height (ops : List (Nat × Nat × List GridRun)) :
    ∀ g : ScreenBuffer, (applyLines g ops).height = g.height := by
  induction ops with
  | nil => intro g; rfl
  | cons op rest ih => intro g; exact ih (gridLine g op.1 op.2.1 op.2.2)

theorem applyLines_inv (ops : List (Nat × Nat × List GridRun)) :
    ∀ g : ScreenBuffer, Inv g → Inv (applyLines g ops) := by
  induction ops with
  | nil => intro g hg; exact hg
  | cons op rest ih =>
      intro g hg
      exact ih (gridLine g op.1 op.2.1 op.2.2) (gridLine_inv g op.1 op.2.1 op.2.2 hg)

/-- C3: `resize` preserves every cell inside both the old and the new
dimensions, fills newly exposed rows/columns with blank cells, truncates to
the new dimensions, and marks every row of the resized grid dirty.  In
particular, after any sequence of in-bounds `writeLine` calls, resizing to a
larger grid preserves every previously written cell. -/
theorem gridResize_spec (g : ScreenBuffer) (w h : Nat) (hg : Inv g) :
    (∀ r c, r < min h g.height → c < min w g.width →
      cellAt (gridResize g w h).cells r c = cellAt g.cells r c) ∧
    (∀ r c, r < h → c < w → g.height ≤ r ∨ g.width ≤ c →
      cellAt (gridResize g w h).cells r c = makeCell) ∧
    (gridResize g w h).cells.length = h ∧
    (∀ row ∈ (gridResize g w h).cells, row.length = w) ∧
    (∀ r, r < h → r ∈ (gridResize g w h).dirtyRows) ∧
    (∀ ops : List (Nat × Nat × List GridRun), g.width ≤ w → g.height ≤ h →
      ∀ r c, r < g.height → c < g.width →
        cellAt (gridResize (applyLines g ops) w h).cells r c =
          cellAt (applyLines g ops).cells r c) := by
  have hinv := gridResize_inv g w h hg
  refine ⟨gridResize_preserves g w h hg, gridResize_blank g w h hg,
    hinv.1, hinv.2, ?_, ?_⟩
  · intro r hr
    show r ∈ g.dirtyRows ∪ Finset.range h
    rw [Finset.mem_union, Finset.mem_range]
    exact Or.inr hr
  · intro ops hwl hhl r c hr hc
    refine gridResize_preserves (applyLines g ops) w h (applyLines_inv ops g hg) r c ?_ ?_
    · rw [applyLines_height]; omega
    · rw [applyLines_width]; omega

/-- Witness for C3: resize a 3×2 grid, with one prior write, to 5×4. -/
theorem gridResize_spec_witness :
    Inv (gridLine (mkScreenBuffer 3 2) 0 0 [GridRun.t "A"]) ∧
    cellAt (gridResize (gridLine (mkScreenBuffer 3 2) 0 0 [GridRun.t "A"]) 5 4).cells 0 0 =
      cellAt (gridLine (mkScreenBuffer 3 2) 0 0 [GridRun.t "A"]).cells 0 0 :=
  ⟨by decide,
    (gridResize_spec (gridLine (mkScreenBuffer 3 2) 0 0 [GridRun.t "A"]) 5 4
      (by decide)).1 0 0 (by decide) (by decide)⟩

/-! ### C1: gridScroll -/

theorem copyCols_getD (left right : Nat) (src : List Cell) :
    ∀ (c0 : Nat) (l : List Cell) (j : Nat) (d : Cell), j < l.length →
      (copyCols left right src c0 l).getD j d =
        if left ≤ c0 + j ∧ c0 + j < right then src.getD (c0 + j) (l.getD j d)
        else l.getD j d := by
  intro c0 l
  induction l generalizing c0 with
  | nil => intro j d hj; simp at hj
  | cons x xs ih =>
      intro j d hj
      cases j with
      | zero => simp [copyCols]
      | succ n =>
          have := ih (c0 + 1) n d (by simpa using Nat.lt_of_succ_lt_succ hj)
          simp only [copyCols, List.getD_cons_succ, this]
          rw [show c0 + 1 + n = c0 + (n + 1) by omega]

theorem clearCols_getD (left right : Nat) :
    ∀ (c0 : Nat) (l : List Cell) (j : Nat) (d : Cell), j < l.length →
      (clearCols left right c0 l).getD j d =
        if left ≤ c0 + j ∧ c0 + j < right then makeCell else l.getD j d := by
  intro c0 l
  induction l generalizing c0 with
  | nil => intro j d hj; simp at hj
  | cons x xs ih =>
      intro j d hj
      cases j with
      | zero => simp [clearCols]
      | succ n =>
          have := ih (c0 + 1) n d (by simpa using Nat.lt_of_succ_lt_succ hj)
          simp only [clearCols, List.getD_cons_succ, this]
          rw [show c0 + 1 + n = c0 + (n + 1) by omega]

theorem scrollCopyStep_getD_ne (left right : Nat) (srcOf : Nat → Nat)
    (cells : List (List Cell)) (r r' : Nat) (h : r' ≠ r) :
    (scrollCopyStep left right srcOf cells r).getD r' [] = cells.getD r' [] :=
  getD_set_ne _ _ _ _ _ (fun he => h he.symm)

theorem scrollCopyStep_getD_self (left right : Nat) (srcOf : Nat → Nat)
    (cells : List (List Cell)) (r : Nat) :
    (scrollCopyStep left right srcOf cells r).getD r [] =
      copyCols left right (cells.getD (srcOf r) []) 0 (cells.getD r []) := by
  by_cases hlt : r < cells.length
  · exact getD_set_self _ _ _ _ hlt
  · unfold scrollCopyStep
    rw [List.set_eq_of_length_le (by omega), List.getD_eq_default _ _ (by omega)]
    rfl

theorem scrollClearStep_getD_ne (left right : Nat)
    (cells : List (List Cell)) (r r' : Nat) (h : r' ≠ r) :
    (scrollClearStep left right cells r).getD r' [] = cells.getD r' [] :=
  getD_set_ne _ _ _ _ _ (fun he => h he.symm)

theorem scrollClearStep_getD_self (left right : Nat)
    (cells : List (List Cell)) (r : Nat) :
    (scrollClearStep left right cells r).getD r [] =
      clearCols left right 0 (cells.getD r []) := by
  by_cases hlt : r < cells.length
  · exact getD_set_self _ _ _ _ hlt
  · unfold scrollClearStep
    rw [List.set_eq_of_length_le (by omega), List.getD_eq_default _ _ (by omega)]
    rfl

/-- The ascending copy loop of a positive scroll: each processed row receives
the copy of its source row *as it was before the loop*, because sources lie
strictly below the rows already written. -/
theorem scrollCopyUp_fold (k left right : Nat) (hk : 0 < k) (top : Nat) :
    ∀ (n : Nat) (cells : List (List Cell)),
      (∀ r, r < top ∨ top + n ≤ r →
        ((List.range' top n).foldl (scrollCopyStep left right (· + k)) cells).getD r [] =
          cells.getD r []) ∧
      (∀ r, top ≤ r → r < top + n →
        ((List.range' top n).foldl (scrollCopyStep left right (· + k)) cells).getD r [] =
          copyCols left right (cells.getD (r + k) []) 0 (cells.getD r [])) := by
  intro n
  induction n with
  | zero => intro cells; exact ⟨fun _ _ => rfl, fun r h1 h2 => by omega⟩
  | succ n ih =>
      intro cells
      have hcat : List.range' top (n + 1) = List.range' top n ++ [top + n] := by
        have := @List.range'_concat 1 top n
        simpa using this
      rw [hcat]
      simp only [List.foldl_append, List.foldl_cons, List.foldl_nil]
      obtain ⟨u1, u2⟩ := ih cells
      constructor
      · intro r hr
        rw [scrollCopyStep_getD_ne _ _ _ _ _ _ (by omega), u1 r (by omega)]
      · intro r h1 h2
        by_cases hrn : r = top + n
        · subst hrn
          rw [scrollCopyStep_getD_self, u1 (top + n) (by omega),
            u1 (top + n + k) (by omega)]
        · rw [scrollCopyStep_getD_ne _ _ _ _ _ _ (by omega), u2 r h1 (by omega)]

/-- The descending copy loop of a negative scroll: sources lie strictly above
(the smaller indices of) the rows already written, so each processed row
receives the copy of its source row as it was before the loop. -/
theorem scrollCopyDown_fold (k left right : Nat) (hk : 0 < k) :
    ∀ (n s : Nat) (cells : List (List Cell)),
      (∀ r, r < s ∨ s + n ≤ r →
        (((List.range' s n).reverse).foldl (scrollCopyStep left right (· - k)) cells).getD r [] =
          cells.getD r []) ∧
      (∀ r, s ≤ r → r < s + n →
        (((List.range' s n).reverse).foldl (scrollCopyStep left right (· - k)) cells).getD r [] =
          copyCols left right (cells.getD (r - k) []) 0 (cells.getD r [])) := by
  intro n
  induction n with
  | zero => intro s cells; exact ⟨fun _ _ => rfl, fun r h1 h2 => by omega⟩
  | succ n ih =>
      intro s cells
      have hcat : (List.range' s (n + 1)).reverse =
          (List.range' (s + 1) n).reverse ++ [s] := by
        have hr : List.range' s (n+1) = s :: List.range' (s+1) n := by
          have := List.range'_succ s n 1
          simpa using this
        rw [hr, List.reverse_cons]
      rw [hcat]
      simp only [List.foldl_append, List.foldl_cons, List.foldl_nil]
      obtain ⟨u1, u2⟩ := ih (s + 1) cells
      constructor
      · intro r hr
        rw [scrollCopyStep_getD_ne _ _ _ _ _ _ (by omega), u1 r (by omega)]
      · intro r h1 h2
        by_cases hrs : r = s
        · subst hrs
          rw [scrollCopyStep_getD_self, u1 r (by omega), u1 (r - k) (by omega)]
        · rw [scrollCopyStep_getD_ne _ _ _ _ _ _ (by omega), u2 r (by omega) (by omega)]

/-- The clear loop of a scroll. -/
theorem scrollClear_fold (left right : Nat) :
    ∀ (n s : Nat) (cells : List (List Cell)),
      (∀ r, r < s ∨ s + n ≤ r →
        ((List.range' s n).foldl (scrollClearStep left right) cells).getD r [] =
          cells.getD r []) ∧
      (∀ r, s ≤ r → r < s + n →
        ((List.range' s n).foldl (scrollClearStep left right) cells).getD r [] =
          clearCols left right 0 (cells.getD r [])) := by
  intro n
  induction n with
  | zero => intro s cells; exact ⟨fun _ _ => rfl, fun r h1 h2 => by omega⟩
  | succ n ih =>
      intro s cells
      have hcat : List.range' s (n + 1) = List.range' s n ++ [s + n] := by
        have := @List.range'_concat 1 s n
        simpa using this
      rw [hcat]
      simp only [List.foldl_append, List.foldl_cons, List.foldl_nil]
      obtain ⟨u1, u2⟩ := ih s cells
      constructor
      · intro r hr
        rw [scrollClearStep_getD_ne _ _ _ _ _ (by omega), u1 r (by omega)]
      · intro r h1 h2
        by_cases hrn : r = s + n
        · subst hrn
          rw [scrollClearStep_getD_self, u1 (s + n) (by omega)]
        · rw [scrollClearStep_getD_ne _ _ _ _ _ (by omega), u2 r h1 (by omega)]

theorem getD_default_irrel {α : Type*} (l : List α) (c : Nat) (d d' : α)
    (h : c < l.length) : l.getD c d = l.getD c d' := by
  rw [List.getD_eq_getElem _ _ h, List.getD_eq_getElem _ _ h]

/-- C1: in-bounds `scroll(top, bot, left, right, ±k)` moves the prior content
of row `r ± k` into row `r` over the column window, blanks the vacated rows in
that window, marks every row of `[top, bot)` dirty, and leaves rows outside
`[top, bot)` untouched. -/
theorem gridScroll_spec (g : ScreenBuffer) (top bot left right k : Nat) (hg : Inv g)
    (htb : top ≤ bot) (hbh : bot ≤ g.height) (hrw : right ≤ g.width)
    (hk : 0 < k) (hkb : k ≤ bot - top) :
    ((∀ r c, top ≤ r → r < bot - k → left ≤ c → c < right →
        cellAt (gridScroll g top bot left right (k : Int)).cells r c =
          cellAt g.cells (r + k) c) ∧
     (∀ r c, bot - k ≤ r → r < bot → left ≤ c → c < right →
        cellAt (gridScroll g top bot left right (k : Int)).cells r c = makeCell) ∧
     (∀ r, top ≤ r → r < bot →
        r ∈ (gridScroll g top bot left right (k : Int)).dirtyRows) ∧
     (∀ r, r < top ∨ bot ≤ r →
        (gridScroll g top bot left right (k : Int)).cells.getD r [] =
          g.cells.getD r [])) ∧
    ((∀ r c, top + k ≤ r → r < bot → left ≤ c → c < right →
        cellAt (gridScroll g top bot left right (-(k : Int))).cells r c =
          cellAt g.cells (r - k) c) ∧
     (∀ r c, top ≤ r → r < top + k → left ≤ c → c < right →
        cellAt (gridScroll g top bot left right (-(k : Int))).cells r c = makeCell) ∧
     (∀ r, top ≤ r → r < bot →
        r ∈ (gridScroll g top bot left right (-(k : Int))).dirtyRows) ∧
     (∀ r, r < top ∨ bot ≤ r →
        (gridScroll g top bot left right (-(k : Int))).cells.getD r [] =
          g.cells.getD r [])) := by
  obtain ⟨hlen, hwid⟩ := hg
  have hrowlen : ∀ r, r < g.height → (g.cells.getD r []).length = g.width := fun r hr =>
    getD_length_of_cellsInv g.width g.height g.cells r ⟨hlen, hwid⟩ (by omega)
  constructor
  · -- positive delta: scroll up
    have hif : gridScroll g top bot left right (k : Int) =
        { g with
          cells := (List.range' (bot - k) (bot - (bot - k))).foldl
            (scrollClearStep left right)
            ((List.range' top (bot - k - top)).foldl
              (scrollCopyStep left right (· + k)) g.cells)
          dirtyRows := g.dirtyRows ∪
            (List.range' top (bot - k - top) ++
              List.range' (bot - k) (bot - (bot - k))).toFinset } := by
      unfold gridScroll
      rw [if_pos (by exact_mod_cast hk)]
      simp only [Int.toNat_natCast]
    rw [hif]
    obtain ⟨c1, c2⟩ := scrollCopyUp_fold k left right hk top (bot - k - top) g.cells
    obtain ⟨d1, d2⟩ := scrollClear_fold left right (bot - (bot - k)) (bot - k)
      ((List.range' top (bot - k - top)).foldl (scrollCopyStep left right (· + k)) g.cells)
    refine ⟨?_, ?_, ?_, ?_⟩
    · intro r c h1 h2 h3 h4
      unfold cellAt
      rw [d1 r (by omega), c2 r (by omega) (by omega),
        copyCols_getD left right (g.cells.getD (r + k) []) 0 (g.cells.getD r []) c makeCell
          (by rw [hrowlen r (by omega)]; omega),
        if_pos (by omega)]
      simp only [Nat.zero_add]
      exact getD_default_irrel (g.cells.getD (r + k) []) c
        ((g.cells.getD r []).getD c makeCell) makeCell
        (by rw [hrowlen (r + k) (by omega)]; omega)
    · intro r c h1 h2 h3 h4
      unfold cellAt
      rw [d2 r (by omega) (by omega), c1 r (by omega),
        clearCols_getD left right 0 (g.cells.getD r []) c makeCell
          (by rw [hrowlen r (by omega)]; omega),
        if_pos (by omega)]
    · intro r h1 h2
      show r ∈ g.dirtyRows ∪ _
      rw [Finset.mem_union, List.mem_toFinset, List.mem_append]
      refine Or.inr ?_
      by_cases hrk : r < bot - k
      · exact Or.inl (by rw [List.mem_range'_1]; omega)
      · exact Or.inr (by rw [List.mem_range'_1]; omega)
    · intro r hr
      rw [d1 r (by omega), c1 r (by omega)]
  · -- negative delta: scroll down
    have hif : gridScroll g top bot left right (-(k : Int)) =
        { g with
          cells := (List.range' top k).foldl
            (scrollClearStep left right)
            (((List.range' (top + k) (bot - (top + k))).reverse).foldl
              (scrollCopyStep left right (· - k)) g.cells)
          dirtyRows := g.dirtyRows ∪
            ((List.range' (top + k) (bot - (top + k))).reverse ++
              List.range' top k).toFinset } := by
      unfold gridScroll
      rw [if_neg (by omega), if_pos (by omega)]
      simp only [neg_neg, Int.toNat_natCast]
    rw [hif]
    obtain ⟨c1, c2⟩ := scrollCopyDown_fold k left right hk (bot - (top + k)) (top + k) g.cells
    obtain ⟨d1, d2⟩ := scrollClear_fold left right k top
      (((List.range' (top + k) (bot - (top + k))).reverse).foldl
        (scrollCopyStep left right (· - k)) g.cells)
    refine ⟨?_, ?_, ?_, ?_⟩
    · intro r c h1 h2 h3 h4
      unfold cellAt
      rw [d1 r (by omega), c2 r (by omega) (by omega),
        copyCols_getD left right (g.cells.getD (r - k) []) 0 (g.cells.getD r []) c makeCell
          (by rw [hrowlen r (by omega)]; omega),
        if_pos (by omega)]
      simp only [Nat.zero_add]
      exact getD_default_irrel (g.cells.getD (r - k) []) c
        ((g.cells.getD r []).getD c makeCell) makeCell
        (by rw [hrowlen (r - k) (by omega)]; omega)
    · intro r c h1 h2 h3 h4
      unfold cellAt
      rw [d2 r (by omega) (by omega), c1 r (by omega),
        clearCols_getD left right 0 (g.cells.getD r []) c makeCell
          (by rw [hrowlen r (by omega)]; omega),
        if_pos (by omega)]
    · intro r h1 h2
      show r ∈ g.dirtyRows ∪ _
      rw [Finset.mem_union, List.mem_toFinset, List.mem_append]
      refine Or.inr ?_
      by_cases hrk : r < top + k
      · exact Or.inr (by rw [List.mem_range'_1]; omega)
      · exact Or.inl (by rw [List.mem_reverse, List.mem_range'_1]; omega)
    · intro r hr
      rw [d1 r (by omega), c1 r (by omega)]

/-- Witness for C1: scrolling a fresh 2×3 grid by ±1 over the full window. -/
theorem gridScroll_spec_witness :
    Inv (mkScreenBuffer 2 3) ∧ (0:Nat) ≤ 3 ∧ 3 ≤ (mkScreenBuffer 2 3).height ∧
    2 ≤ (mkScreenBuffer 2 3).width ∧ 0 < 1 ∧ 1 ≤ 3 - 0 ∧
    (cellAt (gridScroll (mkScreenBuffer 2 3) 0 3 0 2 (1 : Int)).cells 0 0 =
      cellAt (mkScreenBuffer 2 3).cells (0 + 1) 0) :=
  ⟨by decide, by decide, by decide, by decide, by decide, by decide,
    ((gridScroll_spec (mkScreenBuffer 2 3) 0 3 0 2 1 (by decide) (by decide) (by decide)
      (by decide) (by decide) (by decide)).1).1 0 0 (by decide) (by decide) (by decide)
      (by decide)⟩

/-! ### C9: the shape invariant -/

/-- C9: the shape invariant (`cells.length = height`, every row's length =
`width`) holds after construction and is preserved by every grid operation. -/
theorem shape_invariant :
    (∀ w h, Inv (mkScreenBuffer w h)) ∧
    (∀ g w h, Inv g → Inv (gridResize g w h)) ∧
    (∀ g row colStart runs, Inv g → Inv (gridLine g row colStart runs)) ∧
    (∀ g row col, Inv g → Inv (gridCursorGoto g row col)) ∧
    (∀ g top bot left right rows, Inv g → Inv (gridScroll g top bot left right rows)) ∧
    (∀ g, Inv g → Inv (gridClear g)) ∧
    (∀ g id a, Inv g → Inv (hlAttrDefine g id a)) ∧
    (∀ g fg bg sp, Inv g → Inv (defaultColorsSet g fg bg sp)) ∧
    (∀ g e l, Inv g → Inv (modeInfoSet g e l)) ∧
    (∀ g m i, Inv g → Inv (modeChange g m i)) ∧
    (∀ g, Inv g → Inv (busyStart g)) ∧
    (∀ g, Inv g → Inv (busyStop g)) ∧
    (∀ g, Inv g → Inv (flush g)) := by
  refine ⟨?_, gridResize_inv, gridLine_inv, ?_, gridScroll_inv, gridClear_inv,
    ?_, ?_, ?_, ?_, ?_, ?_, ?_⟩
  · intro w h
    refine ⟨by simp [mkScreenBuffer], ?_⟩
    intro row hrow
    rw [List.eq_of_mem_replicate hrow]
    simp [makeRow, mkScreenBuffer]
  all_goals intro g
  all_goals intros
  all_goals assumption

/-- Witness for C9 at concrete inputs. -/
theorem shape_invariant_witness :
    Inv (mkScreenBuffer 3 2) ∧ Inv (gridResize (mkScreenBuffer 3 2) 5 4) :=
  ⟨shape_invariant.1 3 2, shape_invariant.2.1 (mkScreenBuffer 3 2) 5 4 (by decide)⟩

/-! ### Escape-stream lemmas for the highlight compiler -/

theorem digitChar_safe : ∀ d : Nat, d < 16 → Nat.digitChar d ≠ '\x1b' ∧ Nat.digitChar d ≠ 'm' := by
  decide

theorem toDigitsCore_safe : ∀ (fuel n : Nat) (acc : List Char),
    (∀ c ∈ acc, c ≠ '\x1b' ∧ c ≠ 'm') →
    ∀ c ∈ Nat.toDigitsCore 10 fuel n acc, c ≠ '\x1b' ∧ c ≠ 'm' := by
  intro fuel
  induction fuel with
  | zero => intro n acc hacc; exact hacc
  | succ f ih =>
      intro n acc hacc
      simp only [Nat.toDigitsCore]
      split
      · intro c hc
        rcases List.mem_cons.mp hc with rfl | hmem
        · exact digitChar_safe _ (by omega)
        · exact hacc c hmem
      · refine ih (n / 10) _ ?_
        intro c hc
        rcases List.mem_cons.mp hc with rfl | hmem
        · exact digitChar_safe _ (by omega)
        · exact hacc c hmem

theorem repr_safe (n : Nat) : ∀ c ∈ (Nat.repr n).data, c ≠ '\x1b' ∧ c ≠ 'm' := by
  intro c hc
  exact toDigitsCore_safe (n + 1) n [] (by simp) c hc

theorem rgbToAnsi_safe (rgb : Nat) : ∀ c ∈ (rgbToAnsi rgb).data, c ≠ '\x1b' ∧ c ≠ 'm' := by
  intro c hc
  unfold rgbToAnsi at hc
  simp only [String.data_append, List.mem_append] at hc
  rcases hc with ((((hc | hc) | hc) | hc) | hc)
  · exact repr_safe _ c hc
  · simp at hc
    subst hc
    exact ⟨by decide, by decide⟩
  · exact repr_safe _ c hc
  · simp at hc
    subst hc
    exact ⟨by decide, by decide⟩
  · exact repr_safe _ c hc

theorem stripEsc_nil : stripEsc [] = [] := by simp [stripEsc]

theorem stripEsc_cons_ne (c : Char) (l : List Char) (h : c ≠ '\x1b') :
    stripEsc (c :: l) = c :: stripEsc l := by
  simp [stripEsc, h]

theorem stripEsc_escape (rest : List Char) :
    stripEsc ('\x1b' :: '[' :: rest) = stripEsc (dropToM rest) := by
  simp [stripEsc]



theorem NoReset_empty : NoReset "" := fun _ => rfl

theorem Ghost_empty : Ghost "" := fun _ => rfl

theorem NoReset_append (s t : String) (hs : NoReset s) (ht : NoReset t) :
    NoReset (s ++ t) := by
  intro y
  rw [String.data_append, List.append_assoc, hs (t.data ++ y), ht y]

theorem Ghost_append (s t : String) (hs : Ghost s) (ht : Ghost t) : Ghost (s ++ t) := by
  intro y
  rw [String.data_append, List.append_assoc, hs (t.data ++ y), ht y]

theorem NoReset_ite (c : Prop) [Decidable c] (s t : String)
    (hs : NoReset s) (ht : NoReset t) : NoReset (if c then s else t) := by
  by_cases h : c
  · rwa [if_pos h]
  · rwa [if_neg h]

theorem Ghost_ite (c : Prop) [Decidable c] (s t : String)
    (hs : Ghost s) (ht : Ghost t) : Ghost (if c then s else t) := by
  by_cases h : c
  · rwa [if_pos h]
  · rwa [if_neg h]

theorem countR_append_noEsc (l : List Char) (h : ∀ c ∈ l, c ≠ '\x1b') :
    ∀ y, countR (l ++ y) = countR y := by
  induction l with
  | nil => intro y; rfl
  | cons c rest ih =>
      intro y
      rw [List.cons_append, countR,
        if_neg (fun hcon => h c (List.mem_cons_self c rest) hcon.1),
        ih (fun c hc => h c (List.mem_cons_of_mem _ hc)) y, Nat.zero_add]

theorem countR_reset (y : List Char) : countR (RESET.data ++ y) = countR y + 1 := by
  show countR ('\x1b' :: '[' :: '0' :: 'm' :: y) = countR y + 1
  rw [countR, if_pos ⟨rfl, rfl⟩, countR, if_neg (fun h => absurd h.1 (by decide)),
    countR, if_neg (fun h => absurd h.1 (by decide)),
    countR, if_neg (fun h => absurd h.1 (by decide))]
  omega

theorem countR_chunk (c0 : Char) (body : List Char) (h0 : c0 ≠ '0') (hc : c0 ≠ '\x1b')
    (hb : ∀ c ∈ body, c ≠ '\x1b') :
    ∀ y, countR (('\x1b' :: '[' :: c0 :: body) ++ y) = countR y := by
  intro y
  show countR ('\x1b' :: '[' :: c0 :: (body ++ y)) = countR y
  have h1 : ¬('\x1b' = '\x1b' ∧ ('[' :: c0 :: (body ++ y)).take 3 = ['[', '0', 'm']) := by
    rintro ⟨-, h2⟩
    rw [List.take_succ_cons, List.take_succ_cons] at h2
    injection h2 with _ h3
    injection h3 with h4 _
    exact h0 h4
  rw [countR, if_neg h1, countR, if_neg (fun h => absurd h.1 (by decide)),
    countR, if_neg (fun h => hc h.1), countR_append_noEsc body hb y]
  omega

theorem NoReset_mk (s : String) (c0 : Char) (body : List Char)
    (hs : s.data = '\x1b' :: '[' :: c0 :: body) (h0 : c0 ≠ '0') (hc : c0 ≠ '\x1b')
    (hb : ∀ c ∈ body, c ≠ '\x1b') : NoReset s := by
  intro y
  rw [hs]
  exact countR_chunk c0 body h0 hc hb y

theorem dropToM_through : ∀ (body : List Char), (∀ c ∈ body, c ≠ 'm') →
    ∀ y, dropToM (body ++ 'm' :: y) = y := by
  intro body
  induction body with
  | nil => intro _ y; simp [dropToM]
  | cons c rest ih =>
      intro hb y
      rw [List.cons_append, dropToM, if_neg (hb c (List.mem_cons_self c rest))]
      exact ih (fun c hc => hb c (List.mem_cons_of_mem _ hc)) y

theorem Ghost_mk (s : String) (body : List Char)
    (hs : s.data = '\x1b' :: '[' :: (body ++ ['m'])) (hb : ∀ c ∈ body, c ≠ 'm') :
    Ghost s := by
  intro y
  rw [hs]
  have he : ('\x1b' :: '[' :: (body ++ ['m'])) ++ y = '\x1b' :: '[' :: (body ++ 'm' :: y) := by
    simp
  rw [he, stripEsc_escape, dropToM_through body hb y]

theorem NoReset_BOLD : NoReset BOLD :=
  NoReset_mk BOLD '1' ['m'] rfl (by decide) (by decide) (by decide)

theorem NoReset_ITALIC : NoReset ITALIC :=
  NoReset_mk ITALIC '3' ['m'] rfl (by decide) (by decide) (by decide)

theorem NoReset_UNDERLINE : NoReset UNDERLINE :=
  NoReset_mk UNDERLINE '4' ['m'] rfl (by decide) (by decide) (by decide)

theorem NoReset_UNDERCURL : NoReset UNDERCURL :=
  NoReset_mk UNDERCURL '4' [':', '3', 'm'] rfl (by decide) (by decide) (by decide)

theorem NoReset_UNDERDOUBLE : NoReset UNDERDOUBLE :=
  NoReset_mk UNDERDOUBLE '4' [':', '2', 'm'] rfl (by decide) (by decide) (by decide)

theorem NoReset_UNDERDOTTED : NoReset UNDERDOTTED :=
  NoReset_mk UNDERDOTTED '4' [':', '4', 'm'] rfl (by decide) (by decide) (by decide)

theorem NoReset_UNDERDASHED : NoReset UNDERDASHED :=
  NoReset_mk UNDERDASHED '4' [':', '5', 'm'] rfl (by decide) (by decide) (by decide)

theorem NoReset_STRIKE : NoReset STRIKETHROUGH :=
  NoReset_mk STRIKETHROUGH '9' ['m'] rfl (by decide) (by decide) (by decide)

theorem Ghost_RESET : Ghost RESET := Ghost_mk RESET ['0'] rfl (by decide)

theorem Ghost_BOLD : Ghost BOLD := Ghost_mk BOLD ['1'] rfl (by decide)

theorem Ghost_ITALIC : Ghost ITALIC := Ghost_mk ITALIC ['3'] rfl (by decide)

theorem Ghost_UNDERLINE : Ghost UNDERLINE := Ghost_mk UNDERLINE ['4'] rfl (by decide)

theorem Ghost_UNDERCURL : Ghost UNDERCURL :=
  Ghost_mk UNDERCURL ['4', ':', '3'] rfl (by decide)

theorem Ghost_UNDERDOUBLE : Ghost UNDERDOUBLE :=
  Ghost_mk UNDERDOUBLE ['4', ':', '2'] rfl (by decide)

theorem Ghost_UNDERDOTTED : Ghost UNDERDOTTED :=
  Ghost_mk UNDERDOTTED ['4', ':', '4'] rfl (by decide)

theorem Ghost_UNDERDASHED : Ghost UNDERDASHED :=
  Ghost_mk UNDERDASHED ['4', ':', '5'] rfl (by decide)

theorem Ghost_STRIKE : Ghost STRIKETHROUGH := Ghost_mk STRIKETHROUGH ['9'] rfl (by decide)

theorem colorSeq_data (pre : String) (rgb : Nat) (c0 c1 : Char)
    (hpre : pre.data = ['\x1b', '[', c0, c1, ';', '2', ';']) :
    (pre ++ rgbToAnsi rgb ++ "m").data =
      '\x1b' :: '[' :: c0 :: (c1 :: ';' :: '2' :: ';' :: ((rgbToAnsi rgb).data ++ ['m'])) := by
  simp [String.data_append, hpre]

theorem NoReset_colorSeq (pre : String) (rgb : Nat) (c0 c1 : Char)
    (hpre : pre.data = ['\x1b', '[', c0, c1, ';', '2', ';'])
    (h0 : c0 ≠ '0') (hc0 : c0 ≠ '\x1b') (hc1 : c1 ≠ '\x1b') :
    NoReset (pre ++ rgbToAnsi rgb ++ "m") := by
  refine NoReset_mk _ c0 _ (colorSeq_data pre rgb c0 c1 hpre) h0 hc0 ?_
  intro c hc
  simp only [List.mem_cons, List.mem_append] at hc
  rcases hc with rfl | rfl | rfl | rfl | hc | hc
  · exact hc1
  · decide
  · decide
  · decide
  · exact (rgbToAnsi_safe rgb c hc).1
  · simp at hc
    subst hc
    decide

theorem Ghost_colorSeq (pre : String) (rgb : Nat) (c0 c1 : Char)
    (hpre : pre.data = ['\x1b', '[', c0, c1, ';', '2', ';'])
    (h0 : c0 ≠ 'm') (h1 : c1 ≠ 'm') :
    Ghost (pre ++ rgbToAnsi rgb ++ "m") := by
  refine Ghost_mk _ (c0 :: c1 :: ';' :: '2' :: ';' :: (rgbToAnsi rgb).data) ?_ ?_
  · rw [colorSeq_data pre rgb c0 c1 hpre]
    simp
  · intro c hc
    simp only [List.mem_cons] at hc
    rcases hc with rfl | rfl | rfl | rfl | rfl | hc
    · exact h0
    · exact h1
    · decide
    · decide
    · decide
    · exact (rgbToAnsi_safe rgb c hc).2

theorem NoReset_fgSequence (rgb : Nat) : NoReset (fgSequence rgb) :=
  NoReset_colorSeq "\x1b[38;2;" rgb '3' '8' rfl (by decide) (by decide) (by decide)

theorem NoReset_bgSequence (rgb : Nat) : NoReset (bgSequence rgb) :=
  NoReset_colorSeq "\x1b[48;2;" rgb '4' '8' rfl (by decide) (by decide) (by decide)

theorem NoReset_specialSeq (rgb : Nat) : NoReset ("\x1b[58;2;" ++ rgbToAnsi rgb ++ "m") :=
  NoReset_colorSeq "\x1b[58;2;" rgb '5' '8' rfl (by decide) (by decide) (by decide)

theorem Ghost_fgSequence (rgb : Nat) : Ghost (fgSequence rgb) :=
  Ghost_colorSeq "\x1b[38;2;" rgb '3' '8' rfl (by decide) (by decide)

theorem Ghost_bgSequence (rgb : Nat) : Ghost (bgSequence rgb) :=
  Ghost_colorSeq "\x1b[48;2;" rgb '4' '8' rfl (by decide) (by decide)

theorem Ghost_specialSeq (rgb : Nat) : Ghost ("\x1b[58;2;" ++ rgbToAnsi rgb ++ "m") :=
  Ghost_colorSeq "\x1b[58;2;" rgb '5' '8' rfl (by decide) (by decide)

theorem NoReset_buildAttr (a : Option HlAttr) (dc : DefaultColors) :
    NoReset (buildAttrSequence a dc) := by
  unfold buildAttrSequence
  exact NoReset_append _ _
    (NoReset_append _ _
      (NoReset_append _ _
        (NoReset_append _ _
          (NoReset_append _ _
            (NoReset_append _ _ (NoReset_fgSequence _) (NoReset_bgSequence _))
            (NoReset_ite _ _ _ NoReset_BOLD NoReset_empty))
          (NoReset_ite _ _ _ NoReset_ITALIC NoReset_empty))
        (NoReset_ite _ _ _ NoReset_UNDERCURL
          (NoReset_ite _ _ _ NoReset_UNDERDOUBLE
            (NoReset_ite _ _ _ NoReset_UNDERDOTTED
              (NoReset_ite _ _ _ NoReset_UNDERDASHED
                (NoReset_ite _ _ _ NoReset_UNDERLINE NoReset_empty))))))
      (NoReset_ite _ _ _ NoReset_STRIKE NoReset_empty))
    (NoReset_ite _ _ _ (NoReset_specialSeq _) NoReset_empty)

theorem Ghost_buildAttr (a : Option HlAttr) (dc : DefaultColors) :
    Ghost (buildAttrSequence a dc) := by
  unfold buildAttrSequence
  exact Ghost_append _ _
    (Ghost_append _ _
      (Ghost_append _ _
        (Ghost_append _ _
          (Ghost_append _ _
            (Ghost_append _ _ (Ghost_fgSequence _) (Ghost_bgSequence _))
            (Ghost_ite _ _ _ Ghost_BOLD Ghost_empty))
          (Ghost_ite _ _ _ Ghost_ITALIC Ghost_empty))
        (Ghost_ite _ _ _ Ghost_UNDERCURL
          (Ghost_ite _ _ _ Ghost_UNDERDOUBLE
            (Ghost_ite _ _ _ Ghost_UNDERDOTTED
              (Ghost_ite _ _ _ Ghost_UNDERDASHED
                (Ghost_ite _ _ _ Ghost_UNDERLINE Ghost_empty))))))
      (Ghost_ite _ _ _ Ghost_STRIKE Ghost_empty))
    (Ghost_ite _ _ _ (Ghost_specialSeq _) Ghost_empty)

theorem stripEsc_append_noEsc : ∀ (t : List Char), '\x1b' ∉ t →
    ∀ y, stripEsc (t ++ y) = t ++ stripEsc y := by
  intro t
  induction t with
  | nil => intro _ y; rfl
  | cons c rest ih =>
      intro h y
      rw [List.cons_append, stripEsc_cons_ne c _ (fun he => h (he ▸ List.mem_cons_self c rest)),
        ih (fun hm => h (List.mem_cons_of_mem _ hm)) y, List.cons_append]

theorem glyph_noEsc (cl : Cell) (h : '\x1b' ∉ cl.text.data) :
    '\x1b' ∉ (if cl.text = "" then " " else cl.text).data := by
  split
  · decide
  · exact h

/-- Reset count of the `renderRow` loop: one reset per highlight emission plus
the trailing one. -/
theorem renderRowGo_countR (attrs : Nat → Option HlAttr) (dc : DefaultColors) :
    ∀ (cells : List Cell) (prev : Int), (∀ cl ∈ cells, '\x1b' ∉ cl.text.data) →
      countR (renderRowGo attrs dc cells prev).data = emissions cells prev + 1 := by
  intro cells
  induction cells with
  | nil =>
      intro prev _
      show countR RESET.data = 0 + 1
      decide
  | cons cl rest ih =>
      intro prev hesc
      have hglyph := glyph_noEsc cl (hesc cl (List.mem_cons_self cl rest))
      have hrest : ∀ cl' ∈ rest, '\x1b' ∉ cl'.text.data :=
        fun cl' h => hesc cl' (List.mem_cons_of_mem _ h)
      rw [renderRowGo, emissions]
      by_cases hne : (cl.hlId : Int) ≠ prev
      · rw [if_pos hne, if_pos hne]
        simp only [String.data_append, List.append_assoc]
        rw [countR_reset, NoReset_buildAttr (attrs cl.hlId) dc,
          countR_append_noEsc _ (fun c hc he => hglyph (he ▸ hc)),
          ih (cl.hlId : Int) hrest]
        omega
      · rw [if_neg hne, if_neg hne]
        simp only [String.data_append, List.append_assoc]
        rw [List.nil_append,
          countR_append_noEsc _ (fun c hc he => hglyph (he ▸ hc)),
          ih (cl.hlId : Int) hrest]
        omega

/-- Visible glyph stream of the `renderRow` loop: every escape strips away and
each cell contributes its glyph, an empty text contributing one space. -/
theorem renderRowGo_strip (attrs : Nat → Option HlAttr) (dc : DefaultColors) :
    ∀ (cells : List Cell) (prev : Int), (∀ cl ∈ cells, '\x1b' ∉ cl.text.data) →
      stripEsc (renderRowGo attrs dc cells prev).data = visibleGlyphs cells := by
  intro cells
  induction cells with
  | nil =>
      intro prev _
      show stripEsc RESET.data = []
      have := Ghost_RESET []
      rwa [List.append_nil, stripEsc_nil] at this
  | cons cl rest ih =>
      intro prev hesc
      have hglyph := glyph_noEsc cl (hesc cl (List.mem_cons_self cl rest))
      have hrest : ∀ cl' ∈ rest, '\x1b' ∉ cl'.text.data :=
        fun cl' h => hesc cl' (List.mem_cons_of_mem _ h)
      have hvg : visibleGlyphs (cl :: rest) =
          (if cl.text = "" then " " else cl.text).data ++ visibleGlyphs rest := rfl
      rw [renderRowGo, hvg]
      by_cases hne : (cl.hlId : Int) ≠ prev
      · rw [if_pos hne]
        simp only [String.data_append, List.append_assoc]
        rw [Ghost_RESET, Ghost_buildAttr (attrs cl.hlId) dc,
          stripEsc_append_noEsc _ hglyph, ih (cl.hlId : Int) hrest]
      · rw [if_neg hne]
        simp only [String.data_append, List.append_assoc]
        rw [List.nil_append,
          stripEsc_append_noEsc _ hglyph, ih (cl.hlId : Int) hrest]

/-! ### C4: renderRow reset minimality and visible output -/

/-- C4: `renderRow` emits exactly one reset-and-restyle sequence per maximal
run of equal highlight ids (equivalently: per cell whose id differs from the
previous one, the first cell included) plus one trailing reset — so its output
contains `emissions + 1` reset sequences, never an extra style change between
same-id neighbours — and a cell with empty text contributes exactly one space
to the visible (escape-stripped) output.  The concrete conjunct instantiates
the spec's example: a row with exactly two highlight transitions renders with
exactly 3 reset sequences. -/
theorem renderRow_spec :
    (∀ (cells : List Cell) (hlAttrs : Nat → Option HlAttr) (dc : DefaultColors),
      (∀ cl ∈ cells, '\x1b' ∉ cl.text.data) →
      countR (renderRow cells hlAttrs dc).data = emissions cells (-1) + 1 ∧
      stripEsc (renderRow cells hlAttrs dc).data = visibleGlyphs cells) ∧
    emissions [Cell.mk "a" 0, Cell.mk "b" 0, Cell.mk "c" 1, Cell.mk "d" 1] (-1) = 2 ∧
    countR (renderRow [Cell.mk "a" 0, Cell.mk "b" 0, Cell.mk "c" 1, Cell.mk "d" 1]
      (fun i => if i = 1 then some { foreground := some 0xff0000 } else none)
      { fg := 0xffffff, bg := 0x000000, sp := 0xff0000 }).data = 3 := by
  refine ⟨fun cells hlAttrs dc h => ⟨?_, ?_⟩, by decide, by decide⟩
  · exact renderRowGo_countR hlAttrs dc cells (-1) h
  · exact renderRowGo_strip hlAttrs dc cells (-1) h

/-- Witness for C4: the wide-glyph row of the test suite (`漢`, its empty
right half, `x`). -/
theorem renderRow_spec_witness :
    (∀ cl ∈ [Cell.mk "漢" 0, Cell.mk "" 0, Cell.mk "x" 0], '\x1b' ∉ cl.text.data) ∧
    (countR (renderRow [Cell.mk "漢" 0, Cell.mk "" 0, Cell.mk "x" 0]
        (fun _ => none) { fg := 0xffffff, bg := 0x000000, sp := 0xff0000 }).data =
      emissions [Cell.mk "漢" 0, Cell.mk "" 0, Cell.mk "x" 0] (-1) + 1 ∧
    stripEsc (renderRow [Cell.mk "漢" 0, Cell.mk "" 0, Cell.mk "x" 0]
        (fun _ => none) { fg := 0xffffff, bg := 0x000000, sp := 0xff0000 }).data =
      visibleGlyphs [Cell.mk "漢" 0, Cell.mk "" 0, Cell.mk "x" 0]) :=
  ⟨by decide, renderRow_spec.1 _ _ _ (by decide)⟩

/-! ### C5: buildAttrSequence and the missing dim code -/

/-- C5 (code bug): the spec, the repository's unit tests and its feature
inventory all state that a `dim` attribute compiles to the SGR faint code
`ESC[2m` after the other style codes, but `HlAttr`, `hlAttrDefine` and
`buildAttrSequence` have no `dim` handling at all: evaluating the compiler at
the test's attribute (its representable part — `dim` cannot even be stored)
yields an escape string that provably never contains `ESC[2m`. -/
theorem buildAttrSequence_no_dim :
    buildAttrSequence (some { foreground := some 0x888888, italic := true })
        { fg := 0xffffff, bg := 0x000000, sp := 0xff0000 } =
      "\x1b[38;2;136;136;136m\x1b[48;2;0;0;0m\x1b[3m" ∧
    ¬ ("\x1b[2m".data <:+:
      (buildAttrSequence (some { foreground := some 0x888888, italic := true })
        { fg := 0xffffff, bg := 0x000000, sp := 0xff0000 }).data) :=
  ⟨by decide, by decide⟩

/-! ### C6: the vertical cursor shape -/

set_option maxRecDepth 4096 in
/-- C6 (code bug): the spec, the tests and the feature inventory say the
vertical cursor replaces the rendered glyph with the left-eighth-block bar
`▏` (U+258F) and emits no underline, but `renderRowWithCursor` renders the
underlying glyph with an underline escape: at the test's input (row `abc`,
cursor at column 1, shape vertical) the full output keeps the glyph `b`,
contains no bar character, and contains the underline code `ESC[4m`. -/
theorem renderRowWithCursor_vertical_eval :
    renderRowWithCursor [Cell.mk "a" 0, Cell.mk "b" 0, Cell.mk "c" 0] (fun _ => none)
        { fg := 0xffffff, bg := 0x000000, sp := 0xff0000 } 1 (some .vertical) none =
      "\x1b[0m\x1b[38;2;255;255;255m\x1b[48;2;0;0;0ma\x1b[0m\x1b[38;2;255;255;255m\x1b[48;2;0;0;0m\x1b[4mb\x1b[0m\x1b[38;2;255;255;255m\x1b[48;2;0;0;0mc\x1b[0m" ∧
    '▏' ∉ (renderRowWithCursor [Cell.mk "a" 0, Cell.mk "b" 0, Cell.mk "c" 0] (fun _ => none)
        { fg := 0xffffff, bg := 0x000000, sp := 0xff0000 } 1 (some .vertical) none).data ∧
    'b' ∈ (renderRowWithCursor [Cell.mk "a" 0, Cell.mk "b" 0, Cell.mk "c" 0] (fun _ => none)
        { fg := 0xffffff, bg := 0x000000, sp := 0xff0000 } 1 (some .vertical) none).data ∧
    "\x1b[4m".data <:+:
      (renderRowWithCursor [Cell.mk "a" 0, Cell.mk "b" 0, Cell.mk "c" 0] (fun _ => none)
        { fg := 0xffffff, bg := 0x000000, sp := 0xff0000 } 1 (some .vertical) none).data :=
  ⟨by decide, by decide, by decide, by decide⟩

/-! ### C8: the key decoder -/

theorem modWrap_eq (name : String) (key : Key) :
    modWrap name key = "<" ++ modMarks key ++ name ++ ">" := by
  show (if modMarks key ≠ "" then "<" ++ modMarks key ++ name ++ ">"
        else "<" ++ name ++ ">") = _
  by_cases h : modMarks key ≠ ""
  · rw [if_pos h]
  · rw [if_neg h]
    rw [not_not] at h
    rw [h]
    simp

/-- C8: the key decoder's first-match-wins priority order and output strings:
Enter, Escape, Backspace-or-Delete coalesced, Tab/Shift-Tab, the eight
navigation keys with the shift-ctrl-alt marker prefix, ctrl+single-character,
alt+single-character, the literal escapes, space, and unchanged passthrough
for everything else (single character = one UTF-16 unit, as in the source's
`input.length === 1`). -/
theorem keyToNeovimInput_spec :
    (∀ (input : String) (key : Key), key.returnKey = true →
      keyToNeovimInput input key = "<CR>") ∧
    (∀ (input : String) (key : Key), key.returnKey = false → key.escape = true →
      keyToNeovimInput input key = "<Esc>") ∧
    (∀ (input : String) (key : Key), key.returnKey = false → key.escape = false →
      key.backspace = true ∨ key.delete = true →
      keyToNeovimInput input key = "<BS>") ∧
    (∀ (input : String) (key : Key), key.returnKey = false → key.escape = false →
      key.backspace = false → key.delete = false → key.tab = true → key.shift = false →
      keyToNeovimInput input key = "<Tab>") ∧
    (∀ (input : String) (key : Key), key.returnKey = false → key.escape = false →
      key.backspace = false → key.delete = false → key.tab = true → key.shift = true →
      keyToNeovimInput input key = "<S-Tab>") ∧
    (∀ (input : String) (key : Key), key.returnKey = false → key.escape = false →
      key.backspace = false → key.delete = false → key.tab = false →
      key.upArrow = true →
      keyToNeovimInput input key = "<" ++ modMarks key ++ "Up" ++ ">") ∧
    (∀ (input : String) (key : Key), key.returnKey = false → key.escape = false →
      key.backspace = false → key.delete = false → key.tab = false →
      key.upArrow = false → key.downArrow = true →
      keyToNeovimInput input key = "<" ++ modMarks key ++ "Down" ++ ">") ∧
    (∀ (input : String) (key : Key), key.returnKey = false → key.escape = false →
      key.backspace = false → key.delete = false → key.tab = false →
      key.upArrow = false → key.downArrow = false → key.leftArrow = true →
      keyToNeovimInput input key = "<" ++ modMarks key ++ "Left" ++ ">") ∧
    (∀ (input : String) (key : Key), key.returnKey = false → key.escape = false →
      key.backspace = false → key.delete = false → key.tab = false →
      key.upArrow = false → key.downArrow = false → key.leftArrow = false →
      key.rightArrow = true →
      keyToNeovimInput input key = "<" ++ modMarks key ++ "Right" ++ ">") ∧
    (∀ (input : String) (key : Key), key.returnKey = false → key.escape = false →
      key.backspace = false → key.delete = false → key.tab = false →
      key.upArrow = false → key.downArrow = false → key.leftArrow = false →
      key.rightArrow = false → key.pageUp = true →
      keyToNeovimInput input key = "<" ++ modMarks key ++ "PageUp" ++ ">") ∧
    (∀ (input : String) (key : Key), key.returnKey = false → key.escape = false →
      key.backspace = false → key.delete = false → key.tab = false →
      key.upArrow = false → key.downArrow = false → key.leftArrow = false →
      key.rightArrow = false → key.pageUp = false → key.pageDown = true →
      keyToNeovimInput input key = "<" ++ modMarks key ++ "PageDown" ++ ">") ∧
    (∀ (input : String) (key : Key), key.returnKey = false → key.escape = false →
      key.backspace = false → key.delete = false → key.tab = false →
      key.upArrow = false → key.downArrow = false → key.leftArrow = false →
      key.rightArrow = false → key.pageUp = false → key.pageDown = false →
      key.home = true →
      keyToNeovimInput input key = "<" ++ modMarks key ++ "Home" ++ ">") ∧
    (∀ (input : String) (key : Key), key.returnKey = false → key.escape = false →
      key.backspace = false → key.delete = false → key.tab = false →
      key.upArrow = false → key.downArrow = false → key.leftArrow = false →
      key.rightArrow = false → key.pageUp = false → key.pageDown = false →
      key.home = false → key.endKey = true →
      keyToNeovimInput input key = "<" ++ modMarks key ++ "End" ++ ">") ∧
    (∀ (input : String) (key : Key), key.returnKey = false → key.escape = false →
      key.backspace = false → key.delete = false → key.tab = false →
      key.upArrow = false → key.downArrow = false → key.leftArrow = false →
      key.rightArrow = false → key.pageUp = false → key.pageDown = false →
      key.home = false → key.endKey = false → key.ctrl = true → jsLength input = 1 →
      keyToNeovimInput input key = "<C-" ++ input ++ ">") ∧
    (∀ (input : String) (key : Key), key.returnKey = false → key.escape = false →
      key.backspace = false → key.delete = false → key.tab = false →
      key.upArrow = false → key.downArrow = false → key.leftArrow = false →
      key.rightArrow = false → key.pageUp = false → key.pageDown = false →
      key.home = false → key.endKey = false → key.ctrl = false → key.meta = true →
      jsLength input = 1 →
      keyToNeovimInput input key = "<A-" ++ input ++ ">") ∧
    (∀ (key : Key), key.returnKey = false → key.escape = false →
      key.backspace = false → key.delete = false → key.tab = false →
      key.upArrow = false → key.downArrow = false → key.leftArrow = false →
      key.rightArrow = false → key.pageUp = false → key.pageDown = false →
      key.home = false → key.endKey = false → key.ctrl = false → key.meta = false →
      keyToNeovimInput "<" key = "<lt>" ∧
      keyToNeovimInput "\\" key = "<Bslash>" ∧
      keyToNeovimInput "|" key = "<Bar>" ∧
      keyToNeovimInput " " key = "<Space>") ∧
    (∀ (input : String) (key : Key), key.returnKey = false → key.escape = false →
      key.backspace = false → key.delete = false → key.tab = false →
      key.upArrow = false → key.downArrow = false → key.leftArrow = false →
      key.rightArrow = false → key.pageUp = false → key.pageDown = false →
      key.home = false → key.endKey = false →
      ¬(key.ctrl = true ∧ jsLength input = 1) →
      ¬(key.meta = true ∧ jsLength input = 1) →
      input ≠ "<" → input ≠ "\\" → input ≠ "|" → input ≠ " " →
      keyToNeovimInput input key = input) := by
  refine ⟨?_, ?_, ?_, ?_, ?_, ?_, ?_, ?_, ?_, ?_, ?_, ?_, ?_, ?_, ?_, ?_, ?_⟩
  · intro input key h1
    simp [keyToNeovimInput, h1]
  · intro input key h1 h2
    simp [keyToNeovimInput, h1, h2]
  · intro input key h1 h2 h3
    rcases h3 with h3 | h3 <;> simp [keyToNeovimInput, h1, h2, h3]
  · intro input key h1 h2 h3 h4 h5 h6
    simp [keyToNeovimInput, h1, h2, h3, h4, h5, h6]
  · intro input key h1 h2 h3 h4 h5 h6
    simp [keyToNeovimInput, h1, h2, h3, h4, h5, h6]
  · intro input key h1 h2 h3 h4 h5 h6
    simp [keyToNeovimInput, h1, h2, h3, h4, h5, h6, modWrap_eq]
  · intro input key h1 h2 h3 h4 h5 h6 h7
    simp [keyToNeovimInput, h1, h2, h3, h4, h5, h6, h7, modWrap_eq]
  · intro input key h1 h2 h3 h4 h5 h6 h7 h8
    simp [keyToNeovimInput, h1, h2, h3, h4, h5, h6, h7, h8, modWrap_eq]
  · intro input key h1 h2 h3 h4 h5 h6 h7 h8 h9
    simp [keyToNeovimInput, h1, h2, h3, h4, h5, h6, h7, h8, h9, modWrap_eq]
  · intro input key h1 h2 h3 h4 h5 h6 h7 h8 h9 h10
    simp [keyToNeovimInput, h1, h2, h3, h4, h5, h6, h7, h8, h9, h10, modWrap_eq]
  · intro input key h1 h2 h3 h4 h5 h6 h7 h8 h9 h10 h11
    simp [keyToNeovimInput, h1, h2, h3, h4, h5, h6, h7, h8, h9, h10, h11, modWrap_eq]
  · intro input key h1 h2 h3 h4 h5 h6 h7 h8 h9 h10 h11 h12
    simp [keyToNeovimInput, h1, h2, h3, h4, h5, h6, h7, h8, h9, h10, h11, h12, modWrap_eq]
  · intro input key h1 h2 h3 h4 h5 h6 h7 h8 h9 h10 h11 h12 h13
    simp [keyToNeovimInput, h1, h2, h3, h4, h5, h6, h7, h8, h9, h10, h11, h12, h13, modWrap_eq]
  · intro input key h1 h2 h3 h4 h5 h6 h7 h8 h9 h10 h11 h12 h13 h14 h15
    simp [keyToNeovimInput, h1, h2, h3, h4, h5, h6, h7, h8, h9, h10, h11, h12, h13, h14, h15]
  · intro input key h1 h2 h3 h4 h5 h6 h7 h8 h9 h10 h11 h12 h13 h14 h15 h16
    simp [keyToNeovimInput, h1, h2, h3, h4, h5, h6, h7, h8, h9, h10, h11, h12, h13, h14,
      h15, h16]
  · intro key h1 h2 h3 h4 h5 h6 h7 h8 h9 h10 h11 h12 h13 h14 h15
    refine ⟨?_, ?_, ?_, ?_⟩ <;>
      simp [keyToNeovimInput, h1, h2, h3, h4, h5, h6, h7, h8, h9, h10, h11, h12, h13,
        h14, h15, jsLength]
  · intro input key h1 h2 h3 h4 h5 h6 h7 h8 h9 h10 h11 h12 h13 h14 h15 h16 h17 h18 h19
    simp [keyToNeovimInput, h1, h2, h3, h4, h5, h6, h7, h8, h9, h10, h11, h12, h13, h14,
      h15, h16, h17, h18, h19]

/-- Witness for C8: Enter maps to `<CR>`, ctrl+`a` maps to `<C-a>`. -/
theorem keyToNeovimInput_spec_witness :
    ({ returnKey := true } : Key).returnKey = true ∧
    keyToNeovimInput "" { returnKey := true } = "<CR>" :=
  ⟨rfl, keyToNeovimInput_spec.1 "" { returnKey := true } rfl⟩

/-! ### C7: the mouse decoder -/

theorem takeWhile_digits_append : ∀ (d rest : List Char), (∀ c ∈ d, c.isDigit) →
    (∀ x, rest.head? = some x → x.isDigit = false) →
    (d ++ rest).takeWhile (·.isDigit) = d ∧ (d ++ rest).dropWhile (·.isDigit) = rest := by
  intro d
  induction d with
  | nil =>
      intro rest _ hr
      cases rest with
      | nil => exact ⟨rfl, rfl⟩
      | cons x r =>
          constructor
          · rw [List.nil_append, List.takeWhile_cons, hr x rfl]
            simp
          · rw [List.nil_append, List.dropWhile_cons, hr x rfl]
            simp
  | cons c d' ih =>
      intro rest hd hr
      have hc : c.isDigit := hd c (List.mem_cons_self c d')
      obtain ⟨ht, hdp⟩ := ih rest (fun c h => hd c (List.mem_cons_of_mem _ h)) hr
      constructor
      · rw [List.cons_append, List.takeWhile_cons, hc]
        simp only [if_true, ht]
      · rw [List.cons_append, List.dropWhile_cons, hc]
        simp only [if_true, hdp]

theorem parseSGRBody_complete (d1 d2 d3 : List Char) (term : Char)
    (h1 : d1 ≠ []) (hd1 : ∀ c ∈ d1, c.isDigit)
    (h2 : d2 ≠ []) (hd2 : ∀ c ∈ d2, c.isDigit)
    (h3 : d3 ≠ []) (hd3 : ∀ c ∈ d3, c.isDigit)
    (ht : term = 'M' ∨ term = 'm') :
    parseSGRBody ('[' :: '<' :: (d1 ++ ';' :: (d2 ++ ';' :: (d3 ++ [term])))) =
      some (digitsToNat d1, digitsToNat d2, digitsToNat d3, term) := by
  have e1 := takeWhile_digits_append d1 (';' :: (d2 ++ ';' :: (d3 ++ [term]))) hd1
    (by intro x hx; injection hx with hx; subst hx; decide)
  have e2 := takeWhile_digits_append d2 (';' :: (d3 ++ [term])) hd2
    (by intro x hx; injection hx with hx; subst hx; decide)
  have e3 := takeWhile_digits_append d3 [term] hd3
    (by intro x hx
        injection hx with hx
        subst hx
        rcases ht with rfl | rfl <;> decide)
  simp only [parseSGRBody, e1.1, e1.2, e2.1, e2.2, e3.1, e3.2,
    if_neg h1, if_neg h2, if_neg h3, if_pos ht]

theorem sgrRender_data (esc : Bool) (d1 d2 d3 : List Char) (term : Char) :
    (sgrRender esc d1 d2 d3 term).data =
      (if esc then ['\x1b'] else []) ++
        '[' :: '<' :: (d1 ++ ';' :: (d2 ++ ';' :: (d3 ++ [term]))) := by
  cases esc <;> simp [sgrRender, String.data_append]

theorem stripLeadEsc_esc (rest : List Char) : stripLeadEsc ('\x1b' :: rest) = rest := by
  simp [stripLeadEsc]

theorem stripLeadEsc_ne (l : List Char) (h : ∀ rest, l ≠ '\x1b' :: rest) :
    stripLeadEsc l = l := by
  cases l with
  | nil => rfl
  | cons c rest =>
      have hc : c ≠ '\x1b' := fun he => h rest (by rw [he])
      simp [stripLeadEsc, hc]

/-- Completeness with claim-side decoding: every well-formed SGR string
parses to exactly the event the claim's bit rules describe. -/
theorem parseMouseEvent_render (esc : Bool) (d1 d2 d3 : List Char) (term : Char)
    (h1 : d1 ≠ []) (hd1 : ∀ c ∈ d1, c.isDigit)
    (h2 : d2 ≠ []) (hd2 : ∀ c ∈ d2, c.isDigit)
    (h3 : d3 ≠ []) (hd3 : ∀ c ∈ d3, c.isDigit)
    (ht : term = 'M' ∨ term = 'm') :
    parseMouseEvent (sgrRender esc d1 d2 d3 term) =
      some (claimDecode (digitsToNat d1) (digitsToNat d2) (digitsToNat d3) term) := by
  have hstrip : stripLeadEsc (sgrRender esc d1 d2 d3 term).data =
      '[' :: '<' :: (d1 ++ ';' :: (d2 ++ ';' :: (d3 ++ [term]))) := by
    rw [sgrRender_data]
    cases esc
    · rw [if_neg (by simp), List.nil_append]
      exact stripLeadEsc_ne _ (fun rest h => by injection h with h; exact absurd h (by decide))
    · rw [if_pos rfl, List.singleton_append, stripLeadEsc_esc]
  unfold parseMouseEvent
  rw [hstrip, parseSGRBody_complete d1 d2 d3 term h1 hd1 h2 hd2 h3 hd3 ht]
  unfold claimDecode
  by_cases h64 : digitsToNat d1 &&& 64 ≠ 0
  · simp only [if_pos h64]
  · simp only [if_neg h64]

/-- Soundness of the body parser: success reconstructs the matched shape. -/
theorem parseSGRBody_sound (l : List Char) (q : Nat × Nat × Nat × Char)
    (h : parseSGRBody l = some q) :
    ∃ (d1 d2 d3 : List Char) (term : Char),
      d1 ≠ [] ∧ (∀ c ∈ d1, c.isDigit) ∧
      d2 ≠ [] ∧ (∀ c ∈ d2, c.isDigit) ∧
      d3 ≠ [] ∧ (∀ c ∈ d3, c.isDigit) ∧
      (term = 'M' ∨ term = 'm') ∧
      l = '[' :: '<' :: (d1 ++ ';' :: (d2 ++ ';' :: (d3 ++ [term]))) := by
  simp only [parseSGRBody] at h
  split at h
  · rename_i rest
    by_cases hq1 : rest.takeWhile (·.isDigit) = []
    · rw [if_pos hq1] at h; exact absurd h (by simp)
    rw [if_neg hq1] at h
    split at h
    · rename_i r2 heq1
      by_cases hq2 : r2.takeWhile (·.isDigit) = []
      · rw [if_pos hq2] at h; exact absurd h (by simp)
      rw [if_neg hq2] at h
      split at h
      · rename_i r4 heq2
        by_cases hq3 : r4.takeWhile (·.isDigit) = []
        · rw [if_pos hq3] at h; exact absurd h (by simp)
        rw [if_neg hq3] at h
        split at h
        · rename_i t heq3
          by_cases hqt : t = 'M' ∨ t = 'm'
          · refine ⟨rest.takeWhile (·.isDigit), r2.takeWhile (·.isDigit),
              r4.takeWhile (·.isDigit), t, hq1,
              fun c hc => List.mem_takeWhile_imp hc, hq2,
              fun c hc => List.mem_takeWhile_imp hc, hq3,
              fun c hc => List.mem_takeWhile_imp hc, hqt, ?_⟩
            have hr : rest = rest.takeWhile (·.isDigit) ++ rest.dropWhile (·.isDigit) :=
              (List.takeWhile_append_dropWhile _ _).symm
            have hr2 : r2 = r2.takeWhile (·.isDigit) ++ r2.dropWhile (·.isDigit) :=
              (List.takeWhile_append_dropWhile _ _).symm
            have hr4 : r4 = r4.takeWhile (·.isDigit) ++ r4.dropWhile (·.isDigit) :=
              (List.takeWhile_append_dropWhile _ _).symm
            rw [heq3] at hr4
            rw [heq2, hr4] at hr2
            rw [heq1, hr2] at hr
            conv_lhs => rw [hr]
          · rw [if_neg hqt] at h; exact absurd h (by simp)
        · exact absurd h (by simp)
      · exact absurd h (by simp)
    · exact absurd h (by simp)
  · exact absurd h (by simp)

/-- Soundness of the full decoder: a parsed string matches the SGR pattern. -/
theorem parseMouseEvent_sound (s : String) (e : MouseEvent)
    (h : parseMouseEvent s = some e) : specSGR s := by
  unfold parseMouseEvent at h
  split at h
  · exact absurd h (by simp)
  · rename_i cb cx cy t heq
    obtain ⟨d1, d2, d3, term, h1, hd1, h2, hd2, h3, hd3, ht, hshape⟩ :=
      parseSGRBody_sound _ (cb, cx, cy, t) heq
    rcases hdata : s.data with _ | ⟨c, rest⟩
    · rw [hdata] at hshape
      simp [stripLeadEsc] at hshape
    · by_cases hc : c = '\x1b'
      · subst hc
        rw [hdata, stripLeadEsc_esc] at hshape
        refine ⟨true, d1, d2, d3, term, h1, hd1, h2, hd2, h3, hd3, ht, ?_⟩
        apply String.ext
        rw [sgrRender_data, hdata, hshape, if_pos rfl, List.singleton_append]
      · rw [hdata, stripLeadEsc_ne _ (fun r hr => by injection hr with hr; exact hc hr)]
          at hshape
        refine ⟨false, d1, d2, d3, term, h1, hd1, h2, hd2, h3, hd3, ht, ?_⟩
        apply String.ext
        rw [sgrRender_data, hdata, hshape, if_neg (by simp), List.nil_append]

/-- C4-style packaging for C7: the two spec examples, the exact acceptance
condition (non-null exactly on the SGR pattern, with or without the escape
byte), and the claim's bit-level decode on every well-formed sequence. -/
theorem parseMouseEvent_spec :
    parseMouseEvent "\x1b[<64;10;5M" =
      some { button := .wheel, action := .scroll_up, modifier := "", col := 9, row := 4 } ∧
    parseMouseEvent "\x1b[<20;10;5M" =
      some { button := .left, action := .press, modifier := "shift:ctrl", col := 9, row := 4 } ∧
    (∀ s : String, (parseMouseEvent s).isSome ↔ specSGR s) ∧
    (∀ (esc : Bool) (d1 d2 d3 : List Char) (term : Char),
      d1 ≠ [] → (∀ c ∈ d1, c.isDigit) → d2 ≠ [] → (∀ c ∈ d2, c.isDigit) →
      d3 ≠ [] → (∀ c ∈ d3, c.isDigit) → term = 'M' ∨ term = 'm' →
      parseMouseEvent (sgrRender esc d1 d2 d3 term) =
        some (claimDecode (digitsToNat d1) (digitsToNat d2) (digitsToNat d3) term)) := by
  refine ⟨by decide, by decide, ?_, parseMouseEvent_render⟩
  intro s
  constructor
  · intro h
    obtain ⟨e, he⟩ := Option.isSome_iff_exists.mp h
    exact parseMouseEvent_sound s e he
  · rintro ⟨esc, d1, d2, d3, term, h1, hd1, h2, hd2, h3, hd3, ht, rfl⟩
    rw [parseMouseEvent_render esc d1 d2 d3 term h1 hd1 h2 hd2 h3 hd3 ht]
    rfl

/-- Witness for C7: code 80 = ctrl + scroll-up, the spec's own example. -/
theorem parseMouseEvent_spec_witness :
    (['8', '0'] : List Char) ≠ [] ∧ (∀ c ∈ (['8', '0'] : List Char), c.isDigit) ∧
    parseMouseEvent (sgrRender true ['8', '0'] ['1'] ['1'] 'M') =
      some (claimDecode 80 1 1 'M') :=
  ⟨by decide, by decide, by
    have := parseMouseEvent_spec.2.2.2 true ['8', '0'] ['1'] ['1'] 'M'
      (by decide) (by decide) (by decide) (by decide) (by decide) (by decide) (by decide)
    simpa using this⟩

/-! ### C10: flush -/

/-- C10: `flush` increments the generation counter by exactly 1, empties the
dirty-row set and changes nothing else; two consecutive flushes increment the
counter by exactly 2 and leave the dirty set empty after each call. -/
theorem flush_spec (g : ScreenBuffer) :
    (flush g).generation = g.generation + 1 ∧
    (flush g).dirtyRows = ∅ ∧
    (flush g).width = g.width ∧
    (flush g).height = g.height ∧
    (flush g).cells = g.cells ∧
    (flush g).hlAttrs = g.hlAttrs ∧
    (flush g).defaultColors = g.defaultColors ∧
    (flush g).cursor = g.cursor ∧
    (flush g).modeInfoList = g.modeInfoList ∧
    (flush (flush g)).generation = g.generation + 2 ∧
    (flush (flush g)).dirtyRows = ∅ :=
  ⟨rfl, rfl, rfl, rfl, rfl, rfl, rfl, rfl, rfl, rfl, rfl⟩

end NeovimInk
